import Mathlib

/-!
Verification of the autostore repository's natural-language specification
against its source.

Part I embeds the calculation-specification machinery (src/autostore/calcn):
the Calculation model and the projection engine are translated from
src/src/autostore/calcn/core.py.  The canonical encoder, the hash
registry and the keyword projector live in modules of this repository that
are not in the staged sources (autostore/calcn/util.py and
autostore/calcn/__init__.py); those definitions are modelled from the
spec's words and carry a doc comment saying so.

Python dictionaries are embedded as association lists (List (String × _));
a dictionary key set being duplicate-free is carried as an explicit
hypothesis where a proof needs it.

Part II embeds the storage layer (models.py, models/stationary.py,
write.py) as a pure state-passing model over a DBState record.
-/

namespace Autostore

/-- Value of one keyword entry of a calculation specification: the Python
annotation in core.py is dict[str, str | dict | None]; nested dictionaries
carry string values as in the repository's tests. -/
inductive KwVal where
  | str : String → KwVal
  | null : KwVal
  | dict : List (String × String) → KwVal
deriving DecidableEq

/-- A field value as it appears in a pydantic model_dump of a Calculation:
a string, a list of strings (cmdline_args), a string-to-string mapping
(files), or a keyword mapping (keywords, extras). -/
inductive JVal where
  | vstr : String → JVal
  | vlist : List String → JVal
  | vstrmap : List (String × String) → JVal
  | vkwmap : List (String × KwVal) → JVal
deriving DecidableEq

/-- Ordering of dictionary entries by key, used by the canonical encoder. -/
def keyLE {α : Type} (p q : String × α) : Prop := p.1 ≤ q.1

/-- Strict ordering of dictionary entries by key. -/
def keyLT {α : Type} (p q : String × α) : Prop := p.1 < q.1

instance {α : Type} : DecidableRel (@keyLE α) :=
  fun p q => inferInstanceAs (Decidable (p.1 ≤ q.1))

instance {α : Type} : IsTotal (String × α) keyLE :=
  ⟨fun p q => le_total p.1 q.1⟩

instance {α : Type} : IsTrans (String × α) keyLE :=
  ⟨fun _ _ _ h1 h2 => le_trans h1 h2⟩

instance {α : Type} : IsAntisymm (String × α) keyLT :=
  ⟨fun _ _ h1 h2 => absurd h2 (lt_asymm h1)⟩

/-- Sort the entries of an association list by key (the canonical encoder
sorts keys lexicographically at every level). -/
def sortPairs {α : Type} (l : List (String × α)) : List (String × α) :=
  List.insertionSort keyLE l

theorem sortPairs_perm {α : Type} (l : List (String × α)) : (sortPairs l).Perm l :=
  List.perm_insertionSort keyLE l

theorem sortPairs_sorted {α : Type} (l : List (String × α)) :
    List.Sorted keyLE (sortPairs l) :=
  List.sorted_insertionSort keyLE l

/-- A list sorted under the non-strict key order whose keys are
duplicate-free is sorted under the strict key order. -/
theorem sorted_keyLT_of_sorted_keyLE {α : Type} {l : List (String × α)}
    (hs : List.Sorted keyLE l) (hnd : (l.map Prod.fst).Nodup) :
    List.Sorted keyLT l := by
  have hne : List.Pairwise (fun p q : String × α => p.1 ≠ q.1) l := by
    have := (List.pairwise_map).mp hnd
    exact this
  exact (hs.and hne).imp fun h => lt_of_le_of_ne h.1 h.2

/-- Two permuted association lists with duplicate-free keys sort to the
same list: key order determines the position of every entry. -/
theorem sortPairs_eq_of_perm {α : Type} {l1 l2 : List (String × α)}
    (hp : l1.Perm l2) (hnd : (l1.map Prod.fst).Nodup) :
    sortPairs l1 = sortPairs l2 := by
  have hperm : (sortPairs l1).Perm (sortPairs l2) :=
    ((sortPairs_perm l1).trans hp).trans (sortPairs_perm l2).symm
  have hnd1 : ((sortPairs l1).map Prod.fst).Nodup :=
    (((sortPairs_perm l1).map Prod.fst).nodup_iff).mpr hnd
  have hnd2 : ((sortPairs l2).map Prod.fst).Nodup :=
    ((hperm.map Prod.fst).nodup_iff).mp hnd1
  exact List.eq_of_perm_of_sorted hperm
    (sorted_keyLT_of_sorted_keyLE (sortPairs_sorted l1) hnd1)
    (sorted_keyLT_of_sorted_keyLE (sortPairs_sorted l2) hnd2)

/-- Canonical form of a keyword value: a nested dictionary is sorted by
key, scalars are unchanged. -/
def KwVal.canon : KwVal → KwVal
  | .dict m => .dict (sortPairs m)
  | v => v

/-- Canonicalize the values of a keyword mapping (keys keep their order;
the surrounding encoder sorts them). -/
def canonKwPairs (d : List (String × KwVal)) : List (String × KwVal) :=
  d.map fun p => (p.1, p.2.canon)

/-- Canonical form of a dumped field value: every dictionary level is
sorted by key. -/
def JVal.canon : JVal → JVal
  | .vstrmap m => .vstrmap (sortPairs m)
  | .vkwmap m => .vkwmap (sortPairs (canonKwPairs m))
  | v => v

/-- Modelled from the spec: hash_from_dict of autostore/calcn/util.py is
absent from the staged sources.  Per the spec's Canonical Encoder, it
serializes the dumped dictionary with keys sorted lexicographically at
every level and digests the canonical string with a fixed cryptographic
hash.  The digest of an injective serialization is modelled as the
canonical value itself: two hashes are equal exactly when the canonical
forms coincide (digest collisions are outside the model). -/
def hash_from_dict (d : List (String × JVal)) : List (String × JVal) :=
  sortPairs (d.map fun p => (p.1, p.2.canon))

/-- Calculation specification, translated from the pydantic model in
src/src/autostore/calcn/core.py.  Optional scalar fields are Option;
mapping fields are association lists; defaults follow the source. -/
structure Calculation where
  program : String
  method : String
  basis : Option String := none
  input : Option String := none
  keywords : List (String × KwVal) := []
  cmdline_args : List String := []
  files : List (String × String) := []
  calctype : Option String := none
  program_version : Option String := none
  extras : List (String × KwVal) := []
deriving DecidableEq

/-- The field list of a Calculation in pydantic declaration order, each
with its dumped value; none marks a null-valued optional field, which
model_dump(exclude_none=True) omits. -/
def Calculation.fields (c : Calculation) : List (String × Option JVal) :=
  [("program", some (.vstr c.program)),
   ("method", some (.vstr c.method)),
   ("basis", c.basis.map JVal.vstr),
   ("input", c.input.map JVal.vstr),
   ("keywords", some (.vkwmap c.keywords)),
   ("cmdline_args", some (.vlist c.cmdline_args)),
   ("files", some (.vstrmap c.files)),
   ("calctype", c.calctype.map JVal.vstr),
   ("program_version", c.program_version.map JVal.vstr),
   ("extras", some (.vkwmap c.extras))]

/-- Membership of a field name in an optional include set (pydantic's
include argument; none means every field is included). -/
def includeKey (inc : Option (List String)) (f : String) : Bool :=
  match inc with
  | none => true
  | some l => l.contains f

/-- One entry of a model_dump: kept when the field is in the include set
and its value is not null. -/
def dumpEntry (inc : Option (List String)) (p : String × Option JVal) :
    Option (String × JVal) :=
  match p.2 with
  | some v => if includeKey inc p.1 then some (p.1, v) else none
  | none => none

/-- model_dump(exclude_none=True, include=inc) of a Calculation: fields in
declaration order, restricted to the include set, null-valued optional
fields omitted. -/
def Calculation.dump (c : Calculation) (inc : Option (List String)) :
    List (String × JVal) :=
  c.fields.filterMap (dumpEntry inc)

/-- A calculation template in dumped-dictionary form.  The source's
project accepts a Calculation or a CalculationDict template and first
dumps a Calculation template with exclude_unset=True; this structure is
that dictionary: a field is some value exactly when the template
dictionary carries the key.  Optional scalar fields can be present with a
null value (some none). -/
structure Template where
  program : Option String := none
  method : Option String := none
  basis : Option (Option String) := none
  input : Option (Option String) := none
  keywords : Option (List (String × KwVal)) := none
  cmdline_args : Option (List String) := none
  files : Option (List (String × String)) := none
  calctype : Option (Option String) := none
  program_version : Option (Option String) := none
  extras : Option (List (String × KwVal)) := none
deriving DecidableEq

/-- The key set of the template dictionary. -/
def Template.keys (t : Template) : List String :=
  List.filterMap (fun q => if q.2 then some q.1 else none)
    [("program", t.program.isSome), ("method", t.method.isSome),
     ("basis", t.basis.isSome), ("input", t.input.isSome),
     ("keywords", t.keywords.isSome), ("cmdline_args", t.cmdline_args.isSome),
     ("files", t.files.isSome), ("calctype", t.calctype.isSome),
     ("program_version", t.program_version.isSome), ("extras", t.extras.isSome)]

/-- Recursive filtering of one keyword value against the template's value
for the same key: when both are dictionaries, only the nested keys present
in the template's dictionary are kept (values from the spec); otherwise
the spec's value is kept whole. -/
def nestedFilter (v tv : KwVal) : KwVal :=
  match v, tv with
  | .dict m, .dict tm => .dict (m.filter fun q => (tm.map Prod.fst).contains q.1)
  | v, _ => v

/-- Modelled from the spec: project_keywords of autostore/calcn/util.py is
absent from the staged sources.  Per the spec's Projection Engine it
recursively keeps from the spec's mapping only the keys present in the
template's mapping, taking values from the spec; the repository's test
test__keyword_change (user_defined case) pins the recursion into nested
dictionaries. -/
def project_keywords (d t : List (String × KwVal)) : List (String × KwVal) :=
  d.filterMap fun p =>
    match t.lookup p.1 with
    | none => none
    | some tv => some (p.1, nestedFilter p.2 tv)

/-- project of src/src/autostore/calcn/core.py.  The source mutates
calc.keywords and calc.extras in place before dumping; the mutation is
made explicit: the first component of the result is the calc object as it
is left after the call, the second is the returned projected dictionary. -/
def project (c : Calculation) (t : Template) :
    Calculation × List (String × JVal) :=
  let c1 :=
    match t.keywords with
    | some tk => { c with keywords := project_keywords c.keywords tk }
    | none => c
  let c2 :=
    match t.extras with
    | some te => { c1 with extras := project_keywords c1.extras te }
    | none => c1
  (c2, c2.dump (some t.keys))

/-- projected_hash of src/src/autostore/calcn/core.py: project, then hash
the projected dictionary. -/
def projected_hash (c : Calculation) (t : Template) : List (String × JVal) :=
  hash_from_dict (project c t).2

/-- Modelled from the spec: the full built-in scheme of
autostore/calcn/__init__.py is absent from the staged sources.  Per the
spec it digests the entire spec: every non-null field, keywords and
extras verbatim, dictionary canonicalized. -/
def full_hash (c : Calculation) : List (String × JVal) :=
  hash_from_dict (c.dump none)

/-- Modelled from the spec: the minimal built-in scheme projects onto a
fixed template containing only program, method and basis plus a declared
keyword-key allowlist.  The allowlist's concrete keys are not in the
staged sources, so the template is parameterized by it. -/
def minimal_template (allow : List (String × KwVal)) : Template :=
  { program := some "", method := some "", basis := some none,
    keywords := some allow }

/-- Modelled from the spec: the minimal scheme's hash. -/
def minimal_hash (allow : List (String × KwVal)) (c : Calculation) :
    List (String × JVal) :=
  projected_hash c (minimal_template allow)

/-- The template of the user_defined scheme registered by the repository's
test suite (src/tests/test_calcn.py), in dumped form: program, method and
keywords are the explicitly set fields. -/
def user_defined_template : Template :=
  { program := some "P", method := some "M",
    keywords := some
      [("a", .dict [("c", "X"), ("d", "Y")]), ("b", .dict [("c", "X")])] }

/-- The user-defined hash scheme of src/tests/test_calcn.py: projected
hash against its template. -/
def user_defined_hash (c : Calculation) : List (String × JVal) :=
  projected_hash c user_defined_template

/-- Modelled from the spec: the hash registry of
autostore/calcn/__init__.py is absent from the staged sources.  At test
time it holds the built-in full and minimal schemes plus the test suite's
user_defined scheme; the minimal keyword allowlist stays a parameter. -/
def hash_registry (allow : List (String × KwVal)) :
    List (String × (Calculation → List (String × JVal))) :=
  [("full", full_hash), ("minimal", minimal_hash allow),
   ("user_defined", user_defined_hash)]

/-- The registered scheme names (the registry's available()). -/
def hash_registry_available (allow : List (String × KwVal)) : List String :=
  (hash_registry allow).map Prod.fst

/-- calculation_hash(spec, name): look the scheme up and apply it; none
models the UnknownSchemeError for an unregistered name. -/
def calculation_hash (allow : List (String × KwVal)) (c : Calculation)
    (name : String) : Option (List (String × JVal)) :=
  match (hash_registry allow).lookup name with
  | some f => some (f c)
  | none => none

/-!
Part II: the storage layer.  Rows are embedded as records, the database
as lists of rows with per-table autoincrement counters; a session commit
is the transition from one DBState to the next, and an exception raised
before commit leaves the state unchanged.  Real-valued columns
(coordinates, energy) are carried by a type parameter V: the code never
computes with them, it only stores them.
-/

/-- Structure payload of a qcio ProgramInput, as consumed by
GeometryRow.from_results in src/src/autostore/models.py (the conversion
through qc.structure.geometry keeps symbols, coordinates, charge, spin). -/
structure StructureData (V : Type) where
  symbols : List String
  coordinates : List (List V)
  charge : Int
  spin : Int
deriving DecidableEq

/-- The recognized structured-input variant (qcio ProgramInput): a
structure plus a model (method, basis). -/
structure ProgramInputData (V : Type) where
  struct : StructureData V
  method : String
  basis : Option String
deriving DecidableEq

/-- input_data of a qcio Results object: either the recognized
ProgramInput variant or some other input type, carried by its type name. -/
inductive InputData (V : Type) where
  | programInput : ProgramInputData V → InputData V
  | other : String → InputData V
deriving DecidableEq

/-- Whether input_data is the recognized ProgramInput variant. -/
def InputData.isProgramInput {V : Type} : InputData V → Bool
  | .programInput _ => true
  | .other _ => false

/-- A qcio Results object as the write pipeline reads it: input_data,
data.energy, and provenance (program, program_version), flattened. -/
structure Results (V : Type) where
  input_data : InputData V
  energy : V
  program : String
  program_version : String
deriving DecidableEq

/-- The message of the NotImplementedError raised by the from_results
constructors for an unrecognized input type (the failure the spec's
taxonomy names UnsupportedInputError). -/
def unsupportedInputMsg (typeName : String) : String :=
  "Instantiation from " ++ typeName ++ " not yet implemented."

/-- Field content of a CalculationRow before insertion, from
CalculationRow in src/src/autostore/models.py. -/
structure CalculationRowData where
  program : String
  version : String
  method : String
  basis : Option String
deriving DecidableEq

/-- CalculationRow.from_results of src/src/autostore/models.py: succeeds
only on the ProgramInput variant, otherwise raises (error). -/
def CalculationRowData.from_results {V : Type} (res : Results V) :
    Except String CalculationRowData :=
  match res.input_data with
  | .programInput p =>
      .ok { program := res.program, version := res.program_version,
            method := p.method, basis := p.basis }
  | .other typeName => .error (unsupportedInputMsg typeName)

/-- Field content of a GeometryRow before insertion. -/
structure GeometryRowData (V : Type) where
  symbols : List String
  coordinates : List (List V)
  charge : Int
  spin : Int
deriving DecidableEq

/-- GeometryRow.from_results of src/src/autostore/models.py: succeeds only
on the ProgramInput variant, converting its structure to a geometry
(symbols, coordinates, charge, spin), otherwise raises (error). -/
def GeometryRowData.from_results {V : Type} (res : Results V) :
    Except String (GeometryRowData V) :=
  match res.input_data with
  | .programInput p =>
      .ok { symbols := p.struct.symbols, coordinates := p.struct.coordinates,
            charge := p.struct.charge, spin := p.struct.spin }
  | .other typeName => .error (unsupportedInputMsg typeName)

/-- The structural-hash payload: external geom.hash digests (symbols,
coordinates, charge, spin); the digest of that content is modelled as
the content itself. -/
def GeomKey (V : Type) : Type :=
  List String × List (List V) × Int × Int

instance {V : Type} [DecidableEq V] : DecidableEq (GeomKey V) := by
  unfold GeomKey; infer_instance

/-- A stored geometry row (src/src/autostore/models.py): hash is nullable
and populated by the event listener. -/
structure GeometryRow (V : Type) where
  id : Nat
  symbols : List String
  coordinates : List (List V)
  charge : Int
  spin : Int
  hash : Option (GeomKey V)
deriving DecidableEq

/-- A stored calculation row. -/
structure CalculationRow where
  id : Nat
  program : String
  version : String
  method : String
  basis : Option String
deriving DecidableEq

/-- A stored energy row: composite key (geometry_id, calculation_id) plus
the energy value. -/
structure EnergyRow (V : Type) where
  geometry_id : Nat
  calculation_id : Nat
  value : V
deriving DecidableEq

/-- A stored stationary-point row (src/src/autostore/models/stationary.py). -/
structure StationaryPointRow where
  id : Nat
  geometry_id : Nat
  calculation_id : Nat
  order : Int
deriving DecidableEq

/-- A stored identity row (src/src/autostore/models/stationary.py). -/
structure IdentityRow where
  id : Nat
  type : String
  algorithm : String
  identifier : String
deriving DecidableEq

/-- A stationary-point-to-identity link row. -/
structure StationaryIdentityLink where
  stationary_id : Nat
  identity_id : Nat
deriving DecidableEq

/-- The persistent database state: one list per table, plus autoincrement
counters for the primary keys the engine assigns. -/
structure DBState (V : Type) where
  geometries : List (GeometryRow V) := []
  calculations : List CalculationRow := []
  energies : List (EnergyRow V) := []
  stationary_points : List StationaryPointRow := []
  identities : List IdentityRow := []
  links : List StationaryIdentityLink := []
  nextGeometryId : Nat := 0
  nextCalculationId : Nat := 0
  nextStationaryId : Nat := 0
  nextIdentityId : Nat := 0
deriving DecidableEq

/-- The ORM events the populate_geometry_hash listener of
src/src/autostore/models.py is registered for: the source carries a
single listens_for decorator, for before_insert only. -/
def populate_geometry_hash_events : List String := ["before_insert"]

/-- populate_geometry_hash of src/src/autostore/models.py: set the row's
hash from (symbols, coordinates, charge, spin) via the external toolkit. -/
def populate_geometry_hash {V : Type} (g : GeometryRow V) : GeometryRow V :=
  { g with hash := some (g.symbols, g.coordinates, g.charge, g.spin) }

/-- Flushing a geometry row for an ORM event: listeners registered for
that event run, others do not. -/
def flushGeometryRow {V : Type} (event : String) (g : GeometryRow V) :
    GeometryRow V :=
  if populate_geometry_hash_events.contains event then
    populate_geometry_hash g
  else g

/-- Insert a geometry row: the engine assigns the next primary key and
fires the before_insert event before the row is durably stored. -/
def insertGeometry {V : Type} (db : DBState V) (gd : GeometryRowData V) :
    DBState V × GeometryRow V :=
  let g0 : GeometryRow V :=
    { id := db.nextGeometryId, symbols := gd.symbols,
      coordinates := gd.coordinates, charge := gd.charge, spin := gd.spin,
      hash := none }
  let g := flushGeometryRow "before_insert" g0
  ({ db with geometries := db.geometries ++ [g],
             nextGeometryId := db.nextGeometryId + 1 }, g)

/-- Insert a calculation row with the next primary key. -/
def insertCalculation {V : Type} (db : DBState V) (cd : CalculationRowData) :
    DBState V × CalculationRow :=
  let c : CalculationRow :=
    { id := db.nextCalculationId, program := cd.program,
      version := cd.version, method := cd.method, basis := cd.basis }
  ({ db with calculations := db.calculations ++ [c],
             nextCalculationId := db.nextCalculationId + 1 }, c)

/-- write.energy of src/src/autostore/write.py: build the geometry and
calculation rows from the results (raising on an unrecognized input
before anything is added), add the energy row referencing both, and
commit all three in one transaction.  An error leaves the state unchanged
and is the reported failure. -/
def energy {V : Type} (res : Results V) (db : DBState V) :
    DBState V × Option String :=
  match GeometryRowData.from_results res with
  | .error e => (db, some e)
  | .ok gd =>
    match CalculationRowData.from_results res with
    | .error e => (db, some e)
    | .ok cd =>
      let r1 := insertGeometry db gd
      let r2 := insertCalculation r1.1 cd
      let erow : EnergyRow V :=
        { geometry_id := r1.2.id, calculation_id := r2.2.id,
          value := res.energy }
      ({ r2.1 with energies := r2.1.energies ++ [erow] }, none)

/-- The steps of the post-insert derived-identity handler at which an
exception can be raised; the handler's try block catches all of them. -/
inductive PipeStep where
  | resolveGeometry
  | deriveIdentifier
  | findOrCreateStep
  | createLink
deriving DecidableEq

/-- An external stereochemical-identifier oracle: to_mol followed by
automol.mol.inchi, as a function of the geometry's structural content
(symbols, coordinates, charge, spin); it may fail. -/
def DeriveFn (V : Type) : Type :=
  List String → List (List V) → Int → Int → Except String String

/-- The find-or-create query of generate_stationary_inchi: the first
identity row with algorithm InChI and the derived identifier. -/
def findInchiIdentity {V : Type} (db : DBState V) (s : String) :
    Option IdentityRow :=
  db.identities.find? fun i => i.algorithm == "InChI" && i.identifier == s

/-- Find-or-create for the identity row: reuse the existing (InChI,
identifier) row, else create one with type stereoisomer and a fresh
primary key (session.add + flush). -/
def findOrCreateIdentity {V : Type} (db : DBState V) (s : String) :
    DBState V × Nat :=
  match findInchiIdentity db s with
  | some i => (db, i.id)
  | none =>
    let i : IdentityRow :=
      { id := db.nextIdentityId, type := "stereoisomer",
        algorithm := "InChI", identifier := s }
    ({ db with identities := db.identities ++ [i],
               nextIdentityId := db.nextIdentityId + 1 }, i.id)

/-- The link-exists query followed by the conditional link insert of
generate_stationary_inchi: add the (stationary_point, identity) link row
only when that link is absent. -/
def linkIfAbsent {V : Type} (db : DBState V) (spId identId : Nat) :
    DBState V :=
  match db.links.find?
      (fun l => l.stationary_id == spId && l.identity_id == identId) with
  | some _ => db
  | none =>
    { db with links := db.links ++ [⟨spId, identId⟩] }

/-- The body of the try block of generate_stationary_inchi
(src/src/autostore/models/stationary.py): resolve the geometry row,
derive the InChI string, find-or-create the identity, add the link if
absent, commit.  failAt injects an exception at the named step (the
source catches every exception class alike); the geometry lookup and the
derivation oracle can also fail on their own. -/
def runInchiSteps {V : Type} (db : DBState V) (sp : StationaryPointRow)
    (derive : DeriveFn V) (failAt : Option PipeStep) :
    Except String (DBState V) :=
  if failAt = some .resolveGeometry then
    .error "geometry resolution failed"
  else
    match db.geometries.find? (fun g => g.id == sp.geometry_id) with
    | none => .error "geometry resolution failed"
    | some g =>
      if failAt = some .deriveIdentifier then
        .error "identifier derivation failed"
      else
        match derive g.symbols g.coordinates g.charge g.spin with
        | .error e => .error e
        | .ok s =>
          if failAt = some .findOrCreateStep then
            .error "identity find-or-create failed"
          else
            let r := findOrCreateIdentity db s
            if failAt = some .createLink then
              .error "link creation failed"
            else
              .ok (linkIfAbsent r.1 sp.id r.2)

/-- The message printed by the except branch of
generate_stationary_inchi. -/
def inchiFailMsg (spId : Nat) (e : String) : String :=
  "Failed to generate InChI for StationaryPoint " ++ toString spId ++ ": " ++ e

/-- generate_stationary_inchi (src/src/autostore/models/stationary.py),
the after_insert listener on StationaryPointRow: run the try block on a
nested session; on success commit its work, on any exception roll the
nested session back (the committed state is returned unchanged) and
report the failure instead of propagating it.  The second component is
the list of reported failures. -/
def generate_stationary_inchi {V : Type} (db : DBState V)
    (sp : StationaryPointRow) (derive : DeriveFn V)
    (failAt : Option PipeStep) : DBState V × List String :=
  match runInchiSteps db sp derive failAt with
  | .ok db2 => (db2, [])
  | .error e => (db, [inchiFailMsg sp.id e])

/-- write.stationary_point of src/src/autostore/write.py: build geometry
and calculation rows from the results (raising on an unrecognized input
before anything is added), insert the stationary point, commit, and
thereby trigger the after_insert derived-identity handler.  The second
component collects reported (printed) failures. -/
def stationary_point {V : Type} (res : Results V) (db : DBState V)
    (order : Int) (derive : DeriveFn V) (failAt : Option PipeStep) :
    DBState V × List String :=
  match GeometryRowData.from_results res with
  | .error e => (db, [e])
  | .ok gd =>
    match CalculationRowData.from_results res with
    | .error e => (db, [e])
    | .ok cd =>
      let r1 := insertGeometry db gd
      let r2 := insertCalculation r1.1 cd
      let sp : StationaryPointRow :=
        { id := r2.1.nextStationaryId, geometry_id := r1.2.id,
          calculation_id := r2.2.id, order := order }
      let db3 :=
        { r2.1 with stationary_points := r2.1.stationary_points ++ [sp],
                    nextStationaryId := r2.1.nextStationaryId + 1 }
      generate_stationary_inchi db3 sp derive failAt

/-!
Definitions supporting the claims: deep-reordering equivalence of
calculation specifications, the nested-keyword change operation, the
claim-stated top-level-only keyword filter, and concrete fixtures.
-/

/-- A keyword value whose nested dictionary (if any) has duplicate-free
keys: the shape of a value coming from a Python dict. -/
def KwVal.nodupKeys : KwVal → Prop
  | .dict m => (m.map Prod.fst).Nodup
  | _ => True

instance (v : KwVal) : Decidable v.nodupKeys :=
  match v with
  | .dict m => inferInstanceAs (Decidable (m.map Prod.fst).Nodup)
  | .str _ => isTrue trivial
  | .null => isTrue trivial


/-- Every nested dictionary of a keyword mapping has duplicate-free keys. -/
def NestedNodup (d : List (String × KwVal)) : Prop :=
  ∀ p ∈ d, p.2.nodupKeys

instance (d : List (String × KwVal)) : Decidable (NestedNodup d) :=
  inferInstanceAs (Decidable (∀ p ∈ d, p.2.nodupKeys))

/-- Equality of keyword values up to reordering of a nested dictionary:
two dictionaries with the same entries in any order, or equal scalars. -/
def KwValEquiv : KwVal → KwVal → Prop
  | .dict m1, .dict m2 => m1.Perm m2
  | v1, v2 => v1 = v2

/-- Equality of keyword entries up to nested reordering: same key,
equivalent values. -/
def KwPairEquiv (p q : String × KwVal) : Prop :=
  p.1 = q.1 ∧ KwValEquiv p.2 q.2

/-- Deep key-reordering of a keyword mapping: a permutation of the
entries in which each entry keeps its key and its value up to reordering
of the nested dictionary. -/
def KwDictReordered (d1 d2 : List (String × KwVal)) : Prop :=
  ∃ mid, d1.Perm mid ∧ List.Forall₂ KwPairEquiv mid d2

/-- Claim C4's premise: two Calculations equal after deep key-reordering —
the same fields with the same values, where the keyword, extras and files
mappings may list their entries (and their nested entries) in a different
insertion order.  The Nodup side conditions state that the mappings model
Python dicts, whose keys are unique. -/
structure Reordered (c1 c2 : Calculation) : Prop where
  program_eq : c1.program = c2.program
  method_eq : c1.method = c2.method
  basis_eq : c1.basis = c2.basis
  input_eq : c1.input = c2.input
  cmdline_eq : c1.cmdline_args = c2.cmdline_args
  calctype_eq : c1.calctype = c2.calctype
  version_eq : c1.program_version = c2.program_version
  keywords_re : KwDictReordered c1.keywords c2.keywords
  extras_re : KwDictReordered c1.extras c2.extras
  files_perm : c1.files.Perm c2.files
  kw_keys_nodup : (c1.keywords.map Prod.fst).Nodup
  ex_keys_nodup : (c1.extras.map Prod.fst).Nodup
  files_keys_nodup : (c1.files.map Prod.fst).Nodup
  kw_nested_nodup : NestedNodup c1.keywords
  ex_nested_nodup : NestedNodup c1.extras

/-- Overwrite the value at one nested key of a keyword value (no effect
on scalars or on other keys). -/
def updNested (k2 v2 : String) : KwVal → KwVal
  | .dict m => .dict (m.map fun q => if q.1 = k2 then (k2, v2) else q)
  | v => v

/-- Overwrite the value at nested key k2 inside the keyword entry k of a
keyword mapping. -/
def setNested (d : List (String × KwVal)) (k k2 v2 : String) :
    List (String × KwVal) :=
  d.map fun p => if p.1 = k then (p.1, updNested k2 v2 p.2) else p

/-- Claim C5's changed spec: the spec with the value of one nested
keyword key replaced. -/
def changeNestedKeyword (c : Calculation) (k k2 v2 : String) : Calculation :=
  { c with keywords := setNested c.keywords k k2 v2 }

/-- The keyword filtering exactly as claim C6 words it: keep the
top-level keys present in the template's mapping, each with its value
taken whole from the spec.  Stated for comparison with the repository's
project_keywords (which also filters nested keys). -/
def project_keywords_toplevel (d t : List (String × KwVal)) :
    List (String × KwVal) :=
  d.filter fun p => (t.map Prod.fst).contains p.1

/-- The calc fixture of src/tests/test_calcn.py. -/
def testCalc : Calculation :=
  { program := "p", method := "m",
    keywords := [("a", .dict [("c", "x"), ("d", "y")]),
                 ("b", .dict [("c", "x"), ("d", "y")])] }

/-- The calc_reordered fixture of src/tests/test_calcn.py: the same
content with field, keyword and nested-keyword order changed. -/
def testCalcReordered : Calculation :=
  { program := "p", method := "m",
    keywords := [("b", .dict [("d", "y"), ("c", "x")]),
                 ("a", .dict [("d", "y"), ("c", "x")])] }

/-- The water ProgramInput of src/tests/test_autostore.py, with
real-valued entries carried as integers scaled by 10^16 (the model never
computes with them). -/
def waterProgramInput : ProgramInputData Int :=
  { struct :=
      { symbols := ["O", "H", "H"],
        coordinates := [[0, 0, 0], [18897261259082012, 0, 0],
                        [0, 18897261259082012, 0]],
        charge := 0, spin := 0 },
    method := "gfn2", basis := none }

/-- The water energy Results fixture of src/tests/test_autostore.py. -/
def resWater : Results Int :=
  { input_data := .programInput waterProgramInput,
    energy := -50623168028356940,
    program := "crest", program_version := "3.0.2" }

/-- A concrete always-succeeding stereochemical-identifier oracle. -/
def deriveW : DeriveFn Int := fun _ _ _ _ => .ok "InChI=1S/H2O/h1H2"

/-- A Results object whose input_data is not the recognized ProgramInput
variant. -/
def resOther : Results Int :=
  { input_data := .other "FileInput",
    energy := 0, program := "crest", program_version := "3.0.2" }

/-- The geometry row inserted for claim C3's failing input. -/
def geoInserted : GeometryRow Int :=
  (insertGeometry ({} : DBState Int)
    { symbols := ["H"], coordinates := [[0, 0, 0]], charge := 0, spin := 0 }).2

/-- Claim C3's failing input: the inserted row with its coordinates
changed, flushed as an ORM update. -/
def geoUpdated : GeometryRow Int :=
  flushGeometryRow "before_update" { geoInserted with coordinates := [[1, 0, 0]] }

/-- Well-formedness of a database state: the application-level uniqueness
invariants ((algorithm, identifier) pairs and link pairs are
duplicate-free) together with the freshness of the autoincrement
counters. -/
def WF {V : Type} (db : DBState V) : Prop :=
  (db.identities.map fun i => (i.algorithm, i.identifier)).Nodup ∧
  (db.links.map fun l => (l.stationary_id, l.identity_id)).Nodup ∧
  (∀ g ∈ db.geometries, g.id < db.nextGeometryId) ∧
  (∀ i ∈ db.identities, i.id < db.nextIdentityId) ∧
  (∀ l ∈ db.links, l.stationary_id < db.nextStationaryId) ∧
  (db.geometries.map fun g => g.id).Nodup

/-- The geometry row write.stationary_point inserts for a recognized
input: fresh primary key, structure content, hash populated by the
before_insert listener. -/
def geomRowOf {V : Type} (db : DBState V) (p : ProgramInputData V) :
    GeometryRow V :=
  { id := db.nextGeometryId, symbols := p.struct.symbols,
    coordinates := p.struct.coordinates, charge := p.struct.charge,
    spin := p.struct.spin,
    hash := some (p.struct.symbols, p.struct.coordinates, p.struct.charge,
      p.struct.spin) }

/-- The stationary-point row write.stationary_point inserts: fresh
primary key, referencing the freshly inserted geometry and calculation. -/
def spRowOf {V : Type} (db : DBState V) (order : Int) : StationaryPointRow :=
  { id := db.nextStationaryId, geometry_id := db.nextGeometryId,
    calculation_id := db.nextCalculationId, order := order }

/-- The database state after write.stationary_point's primary commit
(geometry, calculation and stationary-point rows inserted), before the
after_insert handler runs. -/
def spInsertState {V : Type} (res : Results V) (db : DBState V) (order : Int)
    (p : ProgramInputData V) : DBState V :=
  { db with
    geometries := db.geometries ++ [geomRowOf db p],
    calculations := db.calculations ++
      [{ id := db.nextCalculationId, program := res.program,
         version := res.program_version, method := p.method,
         basis := p.basis }],
    stationary_points := db.stationary_points ++ [spRowOf db order],
    nextGeometryId := db.nextGeometryId + 1,
    nextCalculationId := db.nextCalculationId + 1,
    nextStationaryId := db.nextStationaryId + 1 }

/-- The state the derived-identity handler commits on success: identity
found or created, link added if absent. -/
def inchiResolvedState {V : Type} (db : DBState V) (spId : Nat) (s : String) :
    DBState V :=
  linkIfAbsent (findOrCreateIdentity db s).1 spId (findOrCreateIdentity db s).2

/-!
Helper lemmas shared by the claim theorems.
-/

theorem mem_keys_of_lookup_eq_some {β : Type} {l : List (String × β)}
    {k : String} {v : β} (h : l.lookup k = some v) : k ∈ l.map Prod.fst := by
  have hs : (l.lookup k).isSome := by rw [h]; rfl
  rw [List.lookup_isSome_iff] at hs
  obtain ⟨p, hp, hk⟩ := hs
  rw [beq_iff_eq.mp hk]
  exact List.mem_map.mpr ⟨p, hp, rfl⟩

theorem mem_project_keywords_keys {d t : List (String × KwVal)}
    {p : String × KwVal} (hp : p ∈ project_keywords d t) :
    p.1 ∈ t.map Prod.fst := by
  obtain ⟨q, hq, he⟩ := List.mem_filterMap.mp hp
  cases hl : t.lookup q.1 with
  | none => rw [hl] at he; exact absurd he (by simp)
  | some tv =>
      rw [hl] at he
      obtain rfl : (q.1, nestedFilter q.2 tv) = p := by
        exact Option.some.inj he
      exact mem_keys_of_lookup_eq_some hl

theorem project_fst (c : Calculation) (t : Template) :
    (project c t).1 =
      { c with
        keywords :=
          match t.keywords with
          | some tk => project_keywords c.keywords tk
          | none => c.keywords,
        extras :=
          match t.extras with
          | some te => project_keywords c.extras te
          | none => c.extras } := by
  cases hk : t.keywords <;> cases he : t.extras <;>
    simp only [project, hk, he]

theorem project_snd (c : Calculation) (t : Template) :
    (project c t).2 = (project c t).1.dump (some t.keys) := rfl

/-!
Claim theorems.
-/

/-- C7: for every external result whose input_data is not the recognized
structured-input variant (ProgramInput), constructing the Calculation and
Geometry records fails with the unsupported-input error (the
NotImplementedError the spec's taxonomy names UnsupportedInputError). -/
theorem c7_unrecognized_input_fails {V : Type} (res : Results V)
    (h : res.input_data.isProgramInput = false) :
    ∃ typeName, res.input_data = .other typeName ∧
      CalculationRowData.from_results res = .error (unsupportedInputMsg typeName) ∧
      GeometryRowData.from_results res = .error (unsupportedInputMsg typeName) := by
  cases hin : res.input_data with
  | programInput p => rw [hin] at h; simp [InputData.isProgramInput] at h
  | other t =>
      exact ⟨t, rfl, by simp [CalculationRowData.from_results, hin],
             by simp [GeometryRowData.from_results, hin]⟩

/-- Witness for C7 at a concrete unrecognized input. -/
theorem c7_witness :
    resOther.input_data.isProgramInput = false ∧
    ∃ typeName, resOther.input_data = .other typeName ∧
      CalculationRowData.from_results resOther =
        .error (unsupportedInputMsg typeName) ∧
      GeometryRowData.from_results resOther =
        .error (unsupportedInputMsg typeName) :=
  ⟨rfl, c7_unrecognized_input_fails resOther rfl⟩

/-- C10: on an unrecognized input, write.energy and
write.stationary_point raise before any row is added, so the database
state is returned unchanged and the error is the only effect. -/
theorem c10_error_preserves_state {V : Type} (res : Results V)
    (db : DBState V) (order : Int) (derive : DeriveFn V)
    (failAt : Option PipeStep) (h : res.input_data.isProgramInput = false) :
    (∃ e, energy res db = (db, some e)) ∧
    (∃ e, stationary_point res db order derive failAt = (db, [e])) := by
  cases hin : res.input_data with
  | programInput p => rw [hin] at h; simp [InputData.isProgramInput] at h
  | other t =>
      constructor
      · exact ⟨unsupportedInputMsg t,
          by simp [energy, GeometryRowData.from_results, hin]⟩
      · exact ⟨unsupportedInputMsg t,
          by simp [stationary_point, GeometryRowData.from_results, hin]⟩

/-- Witness for C10 at a concrete unrecognized input. -/
theorem c10_witness :
    resOther.input_data.isProgramInput = false ∧
    ((∃ e, energy resOther ({} : DBState Int) = ({}, some e)) ∧
     (∃ e, stationary_point resOther ({} : DBState Int) (-1)
        (fun _ _ _ _ => .ok "") none = ({}, [e]))) :=
  ⟨rfl, c10_error_preserves_state resOther {} (-1) (fun _ _ _ _ => .ok "") none rfl⟩

/-- C8: write.energy extracts a geometry and a calculation row from the
result, adds an energy row referencing both, and commits the three in one
transaction; no duplicate check is made, so a second call with the same
input appends a second, independent row set with fresh primary keys. -/
theorem c8_energy_no_dedup {V : Type} (res : Results V) (db : DBState V)
    (h : res.input_data.isProgramInput = true) :
    ∃ (g1 g2 : GeometryRow V) (c1 c2 : CalculationRow),
      (energy res db).2 = none ∧
      (energy res db).1.geometries = db.geometries ++ [g1] ∧
      (energy res db).1.calculations = db.calculations ++ [c1] ∧
      (energy res db).1.energies = db.energies ++
        [{ geometry_id := g1.id, calculation_id := c1.id, value := res.energy }] ∧
      (energy res (energy res db).1).1.geometries = db.geometries ++ [g1, g2] ∧
      (energy res (energy res db).1).1.calculations = db.calculations ++ [c1, c2] ∧
      (energy res (energy res db).1).1.energies = db.energies ++
        [{ geometry_id := g1.id, calculation_id := c1.id, value := res.energy },
         { geometry_id := g2.id, calculation_id := c2.id, value := res.energy }] ∧
      g1.id ≠ g2.id ∧ c1.id ≠ c2.id := by
  cases hin : res.input_data with
  | other t => rw [hin] at h; simp [InputData.isProgramInput] at h
  | programInput p =>
      refine ⟨{ id := db.nextGeometryId, symbols := p.struct.symbols,
                coordinates := p.struct.coordinates, charge := p.struct.charge,
                spin := p.struct.spin,
                hash := some (p.struct.symbols, p.struct.coordinates,
                  p.struct.charge, p.struct.spin) },
              { id := db.nextGeometryId + 1, symbols := p.struct.symbols,
                coordinates := p.struct.coordinates, charge := p.struct.charge,
                spin := p.struct.spin,
                hash := some (p.struct.symbols, p.struct.coordinates,
                  p.struct.charge, p.struct.spin) },
              { id := db.nextCalculationId, program := res.program,
                version := res.program_version, method := p.method,
                basis := p.basis },
              { id := db.nextCalculationId + 1, program := res.program,
                version := res.program_version, method := p.method,
                basis := p.basis },
              ?_, ?_, ?_, ?_, ?_, ?_, ?_, ?_, ?_⟩ <;>
        simp [energy, GeometryRowData.from_results,
          CalculationRowData.from_results, hin, insertGeometry,
          insertCalculation, flushGeometryRow, populate_geometry_hash,
          populate_geometry_hash_events]

/-- Witness for C8 at the water fixture. -/
theorem c8_witness :
    resWater.input_data.isProgramInput = true ∧
    ∃ (g1 g2 : GeometryRow Int) (c1 c2 : CalculationRow),
      (energy resWater ({} : DBState Int)).2 = none ∧
      (energy resWater ({} : DBState Int)).1.geometries =
        ({} : DBState Int).geometries ++ [g1] ∧
      (energy resWater ({} : DBState Int)).1.calculations =
        ({} : DBState Int).calculations ++ [c1] ∧
      (energy resWater ({} : DBState Int)).1.energies =
        ({} : DBState Int).energies ++
        [{ geometry_id := g1.id, calculation_id := c1.id,
           value := resWater.energy }] ∧
      (energy resWater (energy resWater ({} : DBState Int)).1).1.geometries =
        ({} : DBState Int).geometries ++ [g1, g2] ∧
      (energy resWater (energy resWater ({} : DBState Int)).1).1.calculations =
        ({} : DBState Int).calculations ++ [c1, c2] ∧
      (energy resWater (energy resWater ({} : DBState Int)).1).1.energies =
        ({} : DBState Int).energies ++
        [{ geometry_id := g1.id, calculation_id := c1.id,
           value := resWater.energy },
         { geometry_id := g2.id, calculation_id := c2.id,
           value := resWater.energy }] ∧
      g1.id ≠ g2.id ∧ c1.id ≠ c2.id :=
  ⟨rfl, c8_energy_no_dedup resWater {} rfl⟩

/-- C9: project mutates its spec argument: when the template sets
keywords (resp. extras), the spec's keywords (resp. extras) are
overwritten with the projected subset of their original value, whose
entries all lie inside the template's key set; every other field of the
spec is left unchanged. -/
theorem c9_project_mutates_spec (c : Calculation) (t : Template) :
    ((project c t).1.keywords =
      match t.keywords with
      | some tk => project_keywords c.keywords tk
      | none => c.keywords) ∧
    ((project c t).1.extras =
      match t.extras with
      | some te => project_keywords c.extras te
      | none => c.extras) ∧
    (∀ tk, t.keywords = some tk →
      ∀ p ∈ (project c t).1.keywords, p.1 ∈ tk.map Prod.fst) ∧
    (∀ te, t.extras = some te →
      ∀ p ∈ (project c t).1.extras, p.1 ∈ te.map Prod.fst) ∧
    (project c t).1.program = c.program ∧
    (project c t).1.method = c.method ∧
    (project c t).1.basis = c.basis ∧
    (project c t).1.input = c.input ∧
    (project c t).1.cmdline_args = c.cmdline_args ∧
    (project c t).1.files = c.files ∧
    (project c t).1.calctype = c.calctype ∧
    (project c t).1.program_version = c.program_version := by
  rw [project_fst]
  refine ⟨rfl, rfl, ?_, ?_, rfl, rfl, rfl, rfl, rfl, rfl, rfl, rfl⟩
  · intro tk htk p hp
    rw [htk] at hp
    exact mem_project_keywords_keys hp
  · intro te hte p hp
    rw [hte] at hp
    exact mem_project_keywords_keys hp

/-- Witness for C9 at the test fixture and the test's template. -/
theorem c9_witness :
    ((project testCalc user_defined_template).1.keywords =
      match user_defined_template.keywords with
      | some tk => project_keywords testCalc.keywords tk
      | none => testCalc.keywords) ∧
    ((project testCalc user_defined_template).1.extras =
      match user_defined_template.extras with
      | some te => project_keywords testCalc.extras te
      | none => testCalc.extras) ∧
    (∀ tk, user_defined_template.keywords = some tk →
      ∀ p ∈ (project testCalc user_defined_template).1.keywords,
        p.1 ∈ tk.map Prod.fst) ∧
    (∀ te, user_defined_template.extras = some te →
      ∀ p ∈ (project testCalc user_defined_template).1.extras,
        p.1 ∈ te.map Prod.fst) ∧
    (project testCalc user_defined_template).1.program = testCalc.program ∧
    (project testCalc user_defined_template).1.method = testCalc.method ∧
    (project testCalc user_defined_template).1.basis = testCalc.basis ∧
    (project testCalc user_defined_template).1.input = testCalc.input ∧
    (project testCalc user_defined_template).1.cmdline_args =
      testCalc.cmdline_args ∧
    (project testCalc user_defined_template).1.files = testCalc.files ∧
    (project testCalc user_defined_template).1.calctype = testCalc.calctype ∧
    (project testCalc user_defined_template).1.program_version =
      testCalc.program_version :=
  c9_project_mutates_spec testCalc user_defined_template

/-- C3 (failing part): the listener that populates the structural hash is
registered for the before_insert event only; at the concrete failing
input the inserted row's hash is set, but after the coordinates change
and an update flush the hash is stale: it is not recomputed from the new
(symbols, coordinates, charge, spin). -/
theorem c3_hash_not_recomputed_on_update :
    geoInserted.hash = some (["H"], [[0, 0, 0]], 0, 0) ∧
    "before_update" ∉ populate_geometry_hash_events ∧
    geoUpdated.coordinates = [[1, 0, 0]] ∧
    geoUpdated.hash = some (["H"], [[0, 0, 0]], 0, 0) ∧
    geoUpdated.hash ≠ some (geoUpdated.symbols, geoUpdated.coordinates,
      geoUpdated.charge, geoUpdated.spin) := by
  refine ⟨rfl, by decide, rfl, rfl, by decide⟩

/-!
Lemmas about the derived-identity pipeline.
-/

theorem stationary_point_unfold {V : Type} (res : Results V) (db : DBState V)
    (order : Int) (derive : DeriveFn V) (failAt : Option PipeStep)
    (p : ProgramInputData V) (hres : res.input_data = .programInput p) :
    stationary_point res db order derive failAt =
      generate_stationary_inchi (spInsertState res db order p)
        (spRowOf db order) derive failAt := by
  simp only [stationary_point, GeometryRowData.from_results,
    CalculationRowData.from_results, hres, insertGeometry, insertCalculation,
    spInsertState, geomRowOf, spRowOf, flushGeometryRow,
    populate_geometry_hash_events, populate_geometry_hash]
  rfl

theorem runInchiSteps_fails {V : Type} (db : DBState V)
    (sp : StationaryPointRow) (derive : DeriveFn V) (step : PipeStep) :
    ∃ e, runInchiSteps db sp derive (some step) = .error e := by
  unfold runInchiSteps
  cases step with
  | resolveGeometry => simp
  | deriveIdentifier =>
      cases db.geometries.find? (fun g => g.id == sp.geometry_id) with
      | none => simp
      | some g => simp
  | findOrCreateStep =>
      cases db.geometries.find? (fun g => g.id == sp.geometry_id) with
      | none => simp
      | some g =>
          cases hd : derive g.symbols g.coordinates g.charge g.spin with
          | error e => simp [hd]
          | ok s => simp [hd]
  | createLink =>
      cases db.geometries.find? (fun g => g.id == sp.geometry_id) with
      | none => simp
      | some g =>
          cases hd : derive g.symbols g.coordinates g.charge g.spin with
          | error e => simp [hd]
          | ok s => simp [hd]

/-- C2: any failure in the post-insert derived-identity step (geometry
resolution, identifier derivation, identity find-or-create, or link
creation) rolls the nested session back — no identity or link row is
persisted — and is reported rather than propagated; the already-committed
StationaryPoint row is preserved and is left without a derived identity. -/
theorem c2_failure_rolls_back_derived_work {V : Type} (res : Results V)
    (db : DBState V) (order : Int) (derive : DeriveFn V) (step : PipeStep)
    (p : ProgramInputData V) (hres : res.input_data = .programInput p)
    (hwf : WF db) :
    (stationary_point res db order derive (some step)).1.identities =
      db.identities ∧
    (stationary_point res db order derive (some step)).1.links = db.links ∧
    spRowOf db order ∈
      (stationary_point res db order derive (some step)).1.stationary_points ∧
    (stationary_point res db order derive (some step)).2 ≠ [] ∧
    (∀ l ∈ (stationary_point res db order derive (some step)).1.links,
      l.stationary_id ≠ (spRowOf db order).id) := by
  obtain ⟨e, he⟩ := runInchiSteps_fails (spInsertState res db order p)
    (spRowOf db order) derive step
  rw [stationary_point_unfold res db order derive (some step) p hres]
  simp only [generate_stationary_inchi, he]
  refine ⟨rfl, rfl, ?_, by simp, ?_⟩
  · simp [spInsertState]
  · intro l hl
    have hlt := hwf.2.2.2.2.1 l hl
    simp only [spRowOf]
    omega

/-- Witness for C2 at the water fixture, with a failure injected at the
link-creation step on an empty database. -/
theorem c2_witness :
    resWater.input_data = .programInput
      { struct :=
          { symbols := ["O", "H", "H"],
            coordinates := [[0, 0, 0], [18897261259082012, 0, 0],
                            [0, 18897261259082012, 0]],
            charge := 0, spin := 0 },
        method := "gfn2", basis := none } ∧
    WF ({} : DBState Int) ∧
    ((stationary_point resWater ({} : DBState Int) (-1)
        (fun _ _ _ _ => .ok "InChI=1S/H2O/h1H2")
        (some .createLink)).1.identities = ({} : DBState Int).identities ∧
     (stationary_point resWater ({} : DBState Int) (-1)
        (fun _ _ _ _ => .ok "InChI=1S/H2O/h1H2")
        (some .createLink)).1.links = ({} : DBState Int).links ∧
     spRowOf ({} : DBState Int) (-1) ∈
       (stationary_point resWater ({} : DBState Int) (-1)
          (fun _ _ _ _ => .ok "InChI=1S/H2O/h1H2")
          (some .createLink)).1.stationary_points ∧
     (stationary_point resWater ({} : DBState Int) (-1)
        (fun _ _ _ _ => .ok "InChI=1S/H2O/h1H2")
        (some .createLink)).2 ≠ [] ∧
     (∀ l ∈ (stationary_point resWater ({} : DBState Int) (-1)
          (fun _ _ _ _ => .ok "InChI=1S/H2O/h1H2")
          (some .createLink)).1.links,
        l.stationary_id ≠ (spRowOf ({} : DBState Int) (-1)).id)) :=
  ⟨rfl, by simp [WF],
   c2_failure_rolls_back_derived_work resWater {} (-1)
     (fun _ _ _ _ => .ok "InChI=1S/H2O/h1H2") .createLink _ rfl (by simp [WF])⟩

theorem find?_fresh_geometry {V : Type} {l : List (GeometryRow V)} {n : Nat}
    (h : ∀ x ∈ l, x.id < n) (g : GeometryRow V) (hg : g.id = n) :
    (l ++ [g]).find? (fun x => x.id == n) = some g := by
  rw [List.find?_append]
  have h1 : l.find? (fun x => x.id == n) = none := by
    rw [List.find?_eq_none]
    intro x hx
    have := h x hx
    simp only [beq_iff_eq]
    omega
  simp [h1, List.find?_cons, hg]

theorem generate_inchi_success {V : Type} (db : DBState V)
    (sp : StationaryPointRow) (derive : DeriveFn V) (g : GeometryRow V)
    (s : String)
    (hfind : db.geometries.find? (fun x => x.id == sp.geometry_id) = some g)
    (hder : derive g.symbols g.coordinates g.charge g.spin = .ok s) :
    generate_stationary_inchi db sp derive none =
      (inchiResolvedState db sp.id s, []) := by
  simp [generate_stationary_inchi, runInchiSteps, hfind, hder,
    inchiResolvedState]

theorem linkIfAbsent_proj {V : Type} (db : DBState V) (a b : Nat) :
    (linkIfAbsent db a b).identities = db.identities ∧
    (linkIfAbsent db a b).geometries = db.geometries ∧
    (linkIfAbsent db a b).stationary_points = db.stationary_points ∧
    (linkIfAbsent db a b).nextGeometryId = db.nextGeometryId ∧
    (linkIfAbsent db a b).nextStationaryId = db.nextStationaryId := by
  unfold linkIfAbsent
  cases h : db.links.find?
      (fun l => l.stationary_id == a && l.identity_id == b) <;> simp

theorem linkIfAbsent_links_of_fresh {V : Type} (db : DBState V) (a b : Nat)
    (h : ∀ l ∈ db.links, l.stationary_id ≠ a) :
    (linkIfAbsent db a b).links = db.links ++ [⟨a, b⟩] := by
  unfold linkIfAbsent
  have hn : db.links.find?
      (fun l => l.stationary_id == a && l.identity_id == b) = none := by
    rw [List.find?_eq_none]
    intro l hl
    simp [h l hl]
  simp [hn]

theorem findOrCreate_proj {V : Type} (db : DBState V) (s : String) :
    (findOrCreateIdentity db s).1.geometries = db.geometries ∧
    (findOrCreateIdentity db s).1.links = db.links ∧
    (findOrCreateIdentity db s).1.stationary_points = db.stationary_points ∧
    (findOrCreateIdentity db s).1.nextGeometryId = db.nextGeometryId ∧
    (findOrCreateIdentity db s).1.nextStationaryId = db.nextStationaryId := by
  unfold findOrCreateIdentity
  cases h : findInchiIdentity db s <;> simp

theorem findOrCreate_identities {V : Type} (db : DBState V) (s : String) :
    (findOrCreateIdentity db s).1.identities =
      match findInchiIdentity db s with
      | some _ => db.identities
      | none => db.identities ++
          [{ id := db.nextIdentityId, type := "stereoisomer",
             algorithm := "InChI", identifier := s }] := by
  unfold findOrCreateIdentity
  cases h : findInchiIdentity db s <;> simp

theorem findOrCreate_mem {V : Type} (db : DBState V) (s : String) :
    ∃ i ∈ (findOrCreateIdentity db s).1.identities,
      i.algorithm = "InChI" ∧ i.identifier = s ∧
      i.id = (findOrCreateIdentity db s).2 := by
  unfold findOrCreateIdentity
  cases h : findInchiIdentity db s with
  | some i =>
      have hm := List.mem_of_find?_eq_some h
      have hp := List.find?_some h
      simp only [Bool.and_eq_true, beq_iff_eq] at hp
      exact ⟨i, by simpa using hm, hp.1, hp.2, by simp⟩
  | none =>
      refine ⟨{ id := db.nextIdentityId, type := "stereoisomer",
                algorithm := "InChI", identifier := s }, ?_, rfl, rfl, by simp⟩
      simp

theorem findInchi_isSome_of_mem {V : Type} (db : DBState V) (s : String)
    (i : IdentityRow) (hm : i ∈ db.identities) (ha : i.algorithm = "InChI")
    (hi : i.identifier = s) : ∃ j, findInchiIdentity db s = some j := by
  have hs : (db.identities.find?
      (fun x => x.algorithm == "InChI" && x.identifier == s)).isSome := by
    rw [List.find?_isSome]
    exact ⟨i, hm, by simp [ha, hi]⟩
  exact Option.isSome_iff_exists.mp hs

theorem findOrCreate_pairs_nodup {V : Type} (db : DBState V) (s : String)
    (hnd : (db.identities.map fun i => (i.algorithm, i.identifier)).Nodup) :
    ((findOrCreateIdentity db s).1.identities.map
      fun i => (i.algorithm, i.identifier)).Nodup := by
  rw [findOrCreate_identities]
  cases h : findInchiIdentity db s with
  | some i => simpa
  | none =>
      have habs : ("InChI", s) ∉
          db.identities.map fun i => (i.algorithm, i.identifier) := by
        intro hmem
        obtain ⟨i, hi, he⟩ := List.mem_map.mp hmem
        have hno := List.find?_eq_none.mp h i hi
        simp only [Prod.mk.injEq] at he
        simp [he.1, he.2] at hno
      rw [List.map_append]
      simp [List.nodup_append, hnd, habs]

theorem nodup_map_append_one {α β : Type} (f : α → β) (l : List α) (a : α)
    (hl : (l.map f).Nodup) (ha : f a ∉ l.map f) :
    ((l ++ [a]).map f).Nodup := by
  rw [List.map_append]
  simp [List.nodup_append, hl, ha]

/-- C1: inserting the same stationary point twice with the same geometry
creates no duplicate Identity row: the (algorithm, identifier) pairs stay
duplicate-free, the second post-insert pass reuses the identity created
or found by the first (it adds no identity row), and the
(stationary_point, identity) link pairs stay duplicate-free — a link is
only added when absent. -/
theorem c1_identity_dedup {V : Type} (res : Results V) (db : DBState V)
    (order : Int) (derive : DeriveFn V) (p : ProgramInputData V) (s : String)
    (hres : res.input_data = .programInput p)
    (hder : derive p.struct.symbols p.struct.coordinates p.struct.charge
      p.struct.spin = .ok s)
    (hwf : WF db) :
    ((stationary_point res (stationary_point res db order derive none).1
        order derive none).1.identities.map
      fun i => (i.algorithm, i.identifier)).Nodup ∧
    (stationary_point res (stationary_point res db order derive none).1
        order derive none).1.identities =
      (stationary_point res db order derive none).1.identities ∧
    ((stationary_point res (stationary_point res db order derive none).1
        order derive none).1.links.map
      fun l => (l.stationary_id, l.identity_id)).Nodup := by
  obtain ⟨hid_nodup, hlink_nodup, hgeo_lt, _hident_lt, hlink_lt, _hgeo_nodup⟩ := hwf
  -- first call
  have hfind1 : (spInsertState res db order p).geometries.find?
      (fun x => x.id == (spRowOf db order).geometry_id) = some (geomRowOf db p) :=
    find?_fresh_geometry hgeo_lt (geomRowOf db p) rfl
  have hrun1 := generate_inchi_success (spInsertState res db order p)
    (spRowOf db order) derive (geomRowOf db p) s hfind1 hder
  have hsp1 : stationary_point res db order derive none =
      (inchiResolvedState (spInsertState res db order p) db.nextStationaryId s,
       []) := by
    rw [stationary_point_unfold res db order derive none p hres, hrun1]
    rfl
  -- the state after the first call
  have hlinks1 : (inchiResolvedState (spInsertState res db order p)
      db.nextStationaryId s).links =
      db.links ++ [⟨db.nextStationaryId,
        (findOrCreateIdentity (spInsertState res db order p) s).2⟩] := by
    unfold inchiResolvedState
    rw [linkIfAbsent_links_of_fresh]
    · rw [(findOrCreate_proj (spInsertState res db order p) s).2.1]
      rfl
    · intro l hl
      rw [(findOrCreate_proj (spInsertState res db order p) s).2.1] at hl
      have := hlink_lt l hl
      omega
  have hident1 : (inchiResolvedState (spInsertState res db order p)
      db.nextStationaryId s).identities =
      (findOrCreateIdentity (spInsertState res db order p) s).1.identities :=
    (linkIfAbsent_proj _ _ _).1
  have hgeom1 : (inchiResolvedState (spInsertState res db order p)
      db.nextStationaryId s).geometries =
      db.geometries ++ [geomRowOf db p] := by
    unfold inchiResolvedState
    rw [(linkIfAbsent_proj _ _ _).2.1, (findOrCreate_proj _ _).1]
    rfl
  have hnextg1 : (inchiResolvedState (spInsertState res db order p)
      db.nextStationaryId s).nextGeometryId = db.nextGeometryId + 1 := by
    unfold inchiResolvedState
    rw [(linkIfAbsent_proj _ _ _).2.2.2.1, (findOrCreate_proj _ _).2.2.2.1]
    rfl
  have hnexts1 : (inchiResolvedState (spInsertState res db order p)
      db.nextStationaryId s).nextStationaryId = db.nextStationaryId + 1 := by
    unfold inchiResolvedState
    rw [(linkIfAbsent_proj _ _ _).2.2.2.2, (findOrCreate_proj _ _).2.2.2.2]
    rfl
  set db1 := inchiResolvedState (spInsertState res db order p)
    db.nextStationaryId s with hdb1
  -- second call
  have hgeo_lt1 : ∀ x ∈ db1.geometries, x.id < db1.nextGeometryId := by
    intro x hx
    rw [hgeom1] at hx
    rw [hnextg1]
    rcases List.mem_append.mp hx with hx | hx
    · have := hgeo_lt x hx; omega
    · rcases List.mem_singleton.mp hx with rfl
      simp [geomRowOf]
  have hfind2 : (spInsertState res db1 order p).geometries.find?
      (fun x => x.id == (spRowOf db1 order).geometry_id) =
        some (geomRowOf db1 p) :=
    find?_fresh_geometry hgeo_lt1 (geomRowOf db1 p) rfl
  have hrun2 := generate_inchi_success (spInsertState res db1 order p)
    (spRowOf db1 order) derive (geomRowOf db1 p) s hfind2 hder
  have hsp2 : stationary_point res db1 order derive none =
      (inchiResolvedState (spInsertState res db1 order p)
        db1.nextStationaryId s, []) := by
    rw [stationary_point_unfold res db1 order derive none p hres, hrun2]
    rfl
  -- the first call established an (InChI, s) identity row
  obtain ⟨i1, hi1_mem, hi1_alg, hi1_idf, _⟩ :=
    findOrCreate_mem (spInsertState res db order p) s
  have hi1_mem' : i1 ∈ db1.identities := by rw [hident1]; exact hi1_mem
  obtain ⟨j, hj⟩ := findInchi_isSome_of_mem db1 s i1 hi1_mem' hi1_alg hi1_idf
  -- the second pass therefore reuses it: no identity row is added
  have hident2 : (inchiResolvedState (spInsertState res db1 order p)
      db1.nextStationaryId s).identities = db1.identities := by
    unfold inchiResolvedState
    rw [(linkIfAbsent_proj _ _ _).1, findOrCreate_identities]
    have hj2 : findInchiIdentity (spInsertState res db1 order p) s = some j := hj
    rw [hj2]
    rfl
  have hlinks2 : (inchiResolvedState (spInsertState res db1 order p)
      db1.nextStationaryId s).links =
      db1.links ++ [⟨db1.nextStationaryId,
        (findOrCreateIdentity (spInsertState res db1 order p) s).2⟩] := by
    unfold inchiResolvedState
    rw [linkIfAbsent_links_of_fresh]
    · rw [(findOrCreate_proj (spInsertState res db1 order p) s).2.1]
      rfl
    · intro l hl
      rw [(findOrCreate_proj (spInsertState res db1 order p) s).2.1] at hl
      have hl2 : l ∈ db1.links := hl
      rw [hlinks1] at hl2
      rw [hnexts1]
      rcases List.mem_append.mp hl2 with hl3 | hl3
      · have := hlink_lt l hl3; omega
      · rcases List.mem_singleton.mp hl3 with rfl
        simp
  rw [hsp1, hsp2]
  refine ⟨?_, ?_, ?_⟩
  · rw [hident2, hident1]
    exact findOrCreate_pairs_nodup (spInsertState res db order p) s hid_nodup
  · exact hident2
  · rw [hlinks2, hlinks1]
    have h1 : ((db.links ++ [(⟨db.nextStationaryId,
        (findOrCreateIdentity (spInsertState res db order p) s).2⟩ :
          StationaryIdentityLink)]).map
        fun l => (l.stationary_id, l.identity_id)).Nodup := by
      refine nodup_map_append_one _ _ _ hlink_nodup ?_
      intro hmem
      obtain ⟨l, hl, he⟩ := List.mem_map.mp hmem
      have := hlink_lt l hl
      simp only [Prod.mk.injEq] at he
      omega
    refine nodup_map_append_one _ _ _ h1 ?_
    intro hmem
    obtain ⟨l, hl, he⟩ := List.mem_map.mp hmem
    simp only [Prod.mk.injEq] at he
    rcases List.mem_append.mp hl with hl | hl
    · have := hlink_lt l hl
      rw [hnexts1] at he
      omega
    · rcases List.mem_singleton.mp hl with rfl
      rw [hnexts1] at he
      simp at he

/-- Witness for C1: the water stationary point inserted twice into an
empty database with a concrete identifier oracle. -/
theorem c1_witness :
    resWater.input_data = .programInput waterProgramInput ∧
    deriveW waterProgramInput.struct.symbols waterProgramInput.struct.coordinates
      waterProgramInput.struct.charge waterProgramInput.struct.spin =
      .ok "InChI=1S/H2O/h1H2" ∧
    WF ({} : DBState Int) ∧
    (((stationary_point resWater
        (stationary_point resWater ({} : DBState Int) (-1) deriveW none).1
        (-1) deriveW none).1.identities.map
          fun i => (i.algorithm, i.identifier)).Nodup ∧
     (stationary_point resWater
        (stationary_point resWater ({} : DBState Int) (-1) deriveW none).1
        (-1) deriveW none).1.identities =
       (stationary_point resWater ({} : DBState Int) (-1) deriveW
          none).1.identities ∧
     ((stationary_point resWater
        (stationary_point resWater ({} : DBState Int) (-1) deriveW none).1
        (-1) deriveW none).1.links.map
          fun l => (l.stationary_id, l.identity_id)).Nodup) :=
  ⟨rfl, rfl, by simp [WF],
   c1_identity_dedup resWater {} (-1) deriveW waterProgramInput
     "InChI=1S/H2O/h1H2" rfl rfl (by simp [WF])⟩

/-!
Lemmas about dump dictionaries and template key sets.
-/

theorem lookup_eq_none_of_not_mem_keys {β : Type} {l : List (String × β)}
    {f : String} (h : f ∉ l.map Prod.fst) : l.lookup f = none := by
  rw [List.lookup_eq_none_iff]
  intro p hp
  simp only [bne_iff_ne, ne_eq]
  intro he
  exact h (he ▸ List.mem_map.mpr ⟨p, hp, rfl⟩)

theorem keys_filterMap_sublist {α β : Type} (g : String × α → Option (String × β))
    (hg : ∀ p r, g p = some r → r.1 = p.1) (l : List (String × α)) :
    ((l.filterMap g).map Prod.fst).Sublist (l.map Prod.fst) := by
  induction l with
  | nil => simp
  | cons p tl ih =>
      rw [List.filterMap_cons]
      cases hgp : g p with
      | none =>
          simp only [List.map_cons]
          exact ih.trans (List.sublist_cons_self _ _)
      | some r =>
          simp only [List.map_cons, hg p r hgp]
          exact ih.cons₂ _

theorem dumpEntry_key {inc : Option (List String)} {p : String × Option JVal}
    {r : String × JVal} (h : dumpEntry inc p = some r) : r.1 = p.1 := by
  rcases p with ⟨a, ov⟩
  cases ov with
  | none => exact absurd h (by simp [dumpEntry])
  | some v =>
      simp only [dumpEntry] at h
      by_cases hi : includeKey inc a
      · rw [if_pos hi] at h
        obtain rfl := Option.some.inj h
        rfl
      · rw [if_neg hi] at h
        exact absurd h (by simp)

theorem dump_keys_sublist (c : Calculation) (inc : Option (List String)) :
    ((c.dump inc).map Prod.fst).Sublist
      ["program", "method", "basis", "input", "keywords", "cmdline_args",
       "files", "calctype", "program_version", "extras"] :=
  keys_filterMap_sublist (dumpEntry inc) (fun _ _ h => dumpEntry_key h) c.fields

theorem dump_keys_nodup (c : Calculation) (inc : Option (List String)) :
    ((c.dump inc).map Prod.fst).Nodup :=
  (dump_keys_sublist c inc).nodup (by decide)

theorem lookup_filterMap_dumpEntry {l : List (String × Option JVal)}
    (inc : Option (List String)) (f : String)
    (hnd : (l.map Prod.fst).Nodup) :
    (l.filterMap (dumpEntry inc)).lookup f =
      match l.lookup f with
      | some (some v) => if includeKey inc f then some v else none
      | _ => none := by
  induction l with
  | nil => rfl
  | cons p tl ih =>
      rcases p with ⟨a, ov⟩
      rw [List.filterMap_cons]
      simp only [List.map_cons, List.nodup_cons] at hnd
      by_cases hf : a = f
      · subst hf
        have hkeys : ((tl.filterMap (dumpEntry inc)).map Prod.fst).Sublist
            (tl.map Prod.fst) :=
          keys_filterMap_sublist (dumpEntry inc) (fun _ _ h => dumpEntry_key h) tl
        have htl2 : (tl.filterMap (dumpEntry inc)).lookup a = none :=
          lookup_eq_none_of_not_mem_keys
            (fun hmem => hnd.1 (hkeys.mem hmem))
        cases ov with
        | none =>
            simp only [dumpEntry]
            rw [List.lookup_cons]
            simp [htl2]
        | some v =>
            by_cases hi : includeKey inc a
            · simp only [dumpEntry, if_pos hi]
              rw [List.lookup_cons]
              simp
            · simp only [dumpEntry, if_neg hi]
              rw [List.lookup_cons]
              simp [htl2, hi]
      · have hbeq : (f == a) = false := by
          simp only [beq_eq_false_iff_ne, ne_eq]
          exact fun h => hf h.symm
        have hlhs : ∀ r, dumpEntry inc (a, ov) = some r →
            (r :: tl.filterMap (dumpEntry inc)).lookup f =
              (tl.filterMap (dumpEntry inc)).lookup f := by
          intro r hr
          have hk : r.1 = a := dumpEntry_key hr
          rcases r with ⟨rk, rv⟩
          simp only at hk
          subst hk
          rw [List.lookup_cons]
          simp [hbeq]
        rw [List.lookup_cons]
        cases hov : dumpEntry inc (a, ov) with
        | none => simp [hbeq, ih hnd.2]
        | some r => rw [hlhs r hov, ih hnd.2]; simp [hbeq]

theorem dump_lookup (c : Calculation) (inc : Option (List String)) (f : String) :
    (c.dump inc).lookup f =
      match c.fields.lookup f with
      | some (some v) => if includeKey inc f then some v else none
      | _ => none :=
  lookup_filterMap_dumpEntry inc f (by
    have : c.fields.map Prod.fst =
        ["program", "method", "basis", "input", "keywords", "cmdline_args",
         "files", "calctype", "program_version", "extras"] := rfl
    rw [this]
    decide)

theorem template_keys_mem (t : Template) (f : String) :
    f ∈ t.keys ↔
      (f, true) ∈ [("program", t.program.isSome), ("method", t.method.isSome),
       ("basis", t.basis.isSome), ("input", t.input.isSome),
       ("keywords", t.keywords.isSome), ("cmdline_args", t.cmdline_args.isSome),
       ("files", t.files.isSome), ("calctype", t.calctype.isSome),
       ("program_version", t.program_version.isSome),
       ("extras", t.extras.isSome)] := by
  unfold Template.keys
  rw [List.mem_filterMap]
  constructor
  · rintro ⟨⟨a, b⟩, hq, hg⟩
    cases b with
    | false => exact absurd hg (by simp)
    | true =>
        simp only [if_pos] at hg
        exact (Option.some.inj hg) ▸ hq
  · intro hm
    exact ⟨(f, true), hm, by simp⟩

theorem includeKey_keys_eq (t : Template) (f : String) (b : Bool)
    (h : f ∈ t.keys ↔ b = true) : includeKey (some t.keys) f = b := by
  cases b with
  | false =>
      simp only [includeKey, List.contains, List.elem_eq_mem,
        decide_eq_false_iff_not]
      intro hm
      exact absurd (h.mp hm) (by simp)
  | true =>
      simp only [includeKey, List.contains, List.elem_eq_mem,
        decide_eq_true_eq]
      exact h.mpr rfl

theorem mem_dump_keys {c : Calculation} {ks : List String}
    {q : String × JVal} (hq : q ∈ c.dump (some ks)) : q.1 ∈ ks := by
  obtain ⟨p, _hp, he⟩ := List.mem_filterMap.mp hq
  rcases p with ⟨a, ov⟩
  cases ov with
  | none => exact absurd he (by simp [dumpEntry])
  | some v =>
      simp only [dumpEntry] at he
      by_cases hi : includeKey (some ks) a
      · rw [if_pos hi] at he
        obtain rfl := Option.some.inj he
        simp only [includeKey, List.contains, List.elem_eq_mem,
          decide_eq_true_eq] at hi
        exact hi
      · rw [if_neg hi] at he
        exact absurd he (by simp)

theorem includeKey_keys_program (t : Template) :
    includeKey (some t.keys) "program" = t.program.isSome :=
  includeKey_keys_eq t _ _ (by rw [template_keys_mem]; simp)

theorem includeKey_keys_method (t : Template) :
    includeKey (some t.keys) "method" = t.method.isSome :=
  includeKey_keys_eq t _ _ (by rw [template_keys_mem]; simp)

theorem includeKey_keys_basis (t : Template) :
    includeKey (some t.keys) "basis" = t.basis.isSome :=
  includeKey_keys_eq t _ _ (by rw [template_keys_mem]; simp)

theorem includeKey_keys_input (t : Template) :
    includeKey (some t.keys) "input" = t.input.isSome :=
  includeKey_keys_eq t _ _ (by rw [template_keys_mem]; simp)

theorem includeKey_keys_keywords (t : Template) :
    includeKey (some t.keys) "keywords" = t.keywords.isSome :=
  includeKey_keys_eq t _ _ (by rw [template_keys_mem]; simp)

theorem includeKey_keys_cmdline (t : Template) :
    includeKey (some t.keys) "cmdline_args" = t.cmdline_args.isSome :=
  includeKey_keys_eq t _ _ (by rw [template_keys_mem]; simp)

theorem includeKey_keys_files (t : Template) :
    includeKey (some t.keys) "files" = t.files.isSome :=
  includeKey_keys_eq t _ _ (by rw [template_keys_mem]; simp)

theorem includeKey_keys_calctype (t : Template) :
    includeKey (some t.keys) "calctype" = t.calctype.isSome :=
  includeKey_keys_eq t _ _ (by rw [template_keys_mem]; simp)

theorem includeKey_keys_version (t : Template) :
    includeKey (some t.keys) "program_version" = t.program_version.isSome :=
  includeKey_keys_eq t _ _ (by rw [template_keys_mem]; simp)

theorem includeKey_keys_extras (t : Template) :
    includeKey (some t.keys) "extras" = t.extras.isSome :=
  includeKey_keys_eq t _ _ (by rw [template_keys_mem]; simp)

/-- C6 (amended): project(spec, template) returns a dictionary holding
exactly the fields set on the template, with values drawn from the spec
and null-valued fields omitted; for keywords and extras, when present in
the template, the kept entries are filtered recursively against the
template's mapping — a top-level key must be present in the template's
mapping and, within a nested dictionary value, a nested key must be
present in the template's nested dictionary — with all kept values taken
from the spec, not the template. -/
theorem c6_project_returns_template_fields (c : Calculation) (t : Template) :
    ((project c t).2.lookup "program" =
       if t.program.isSome then some (.vstr c.program) else none) ∧
    ((project c t).2.lookup "method" =
       if t.method.isSome then some (.vstr c.method) else none) ∧
    ((project c t).2.lookup "basis" =
       if t.basis.isSome then c.basis.map JVal.vstr else none) ∧
    ((project c t).2.lookup "input" =
       if t.input.isSome then c.input.map JVal.vstr else none) ∧
    ((project c t).2.lookup "keywords" =
       if t.keywords.isSome then
         some (.vkwmap (project_keywords c.keywords (t.keywords.getD [])))
       else none) ∧
    ((project c t).2.lookup "cmdline_args" =
       if t.cmdline_args.isSome then some (.vlist c.cmdline_args) else none) ∧
    ((project c t).2.lookup "files" =
       if t.files.isSome then some (.vstrmap c.files) else none) ∧
    ((project c t).2.lookup "calctype" =
       if t.calctype.isSome then c.calctype.map JVal.vstr else none) ∧
    ((project c t).2.lookup "program_version" =
       if t.program_version.isSome then c.program_version.map JVal.vstr
       else none) ∧
    ((project c t).2.lookup "extras" =
       if t.extras.isSome then
         some (.vkwmap (project_keywords c.extras (t.extras.getD [])))
       else none) ∧
    (∀ q ∈ (project c t).2, q.1 ∈ t.keys) := by
  rw [project_snd, project_fst]
  refine ⟨?_, ?_, ?_, ?_, ?_, ?_, ?_, ?_, ?_, ?_,
    fun q hq => mem_dump_keys hq⟩
  · rw [dump_lookup]
    show (match some (some (JVal.vstr c.program)) with
      | some (some v) => if includeKey (some t.keys) "program" then some v else none
      | _ => none) = _
    rw [includeKey_keys_program]
  · rw [dump_lookup]
    show (match some (some (JVal.vstr c.method)) with
      | some (some v) => if includeKey (some t.keys) "method" then some v else none
      | _ => none) = _
    rw [includeKey_keys_method]
  · rw [dump_lookup]
    show (match some (c.basis.map JVal.vstr) with
      | some (some v) => if includeKey (some t.keys) "basis" then some v else none
      | _ => none) = _
    rw [includeKey_keys_basis]
    cases c.basis <;> cases t.basis.isSome <;> simp
  · rw [dump_lookup]
    show (match some (c.input.map JVal.vstr) with
      | some (some v) => if includeKey (some t.keys) "input" then some v else none
      | _ => none) = _
    rw [includeKey_keys_input]
    cases c.input <;> cases t.input.isSome <;> simp
  · rw [dump_lookup]
    show (match some (some (JVal.vkwmap
        (match t.keywords with
         | some tk => project_keywords c.keywords tk
         | none => c.keywords))) with
      | some (some v) => if includeKey (some t.keys) "keywords" then some v else none
      | _ => none) = _
    rw [includeKey_keys_keywords]
    cases hk : t.keywords <;> simp
  · rw [dump_lookup]
    show (match some (some (JVal.vlist c.cmdline_args)) with
      | some (some v) =>
          if includeKey (some t.keys) "cmdline_args" then some v else none
      | _ => none) = _
    rw [includeKey_keys_cmdline]
  · rw [dump_lookup]
    show (match some (some (JVal.vstrmap c.files)) with
      | some (some v) => if includeKey (some t.keys) "files" then some v else none
      | _ => none) = _
    rw [includeKey_keys_files]
  · rw [dump_lookup]
    show (match some (c.calctype.map JVal.vstr) with
      | some (some v) => if includeKey (some t.keys) "calctype" then some v else none
      | _ => none) = _
    rw [includeKey_keys_calctype]
    cases c.calctype <;> cases t.calctype.isSome <;> simp
  · rw [dump_lookup]
    show (match some (c.program_version.map JVal.vstr) with
      | some (some v) =>
          if includeKey (some t.keys) "program_version" then some v else none
      | _ => none) = _
    rw [includeKey_keys_version]
    cases c.program_version <;> cases t.program_version.isSome <;> simp
  · rw [dump_lookup]
    show (match some (some (JVal.vkwmap
        (match t.extras with
         | some te => project_keywords c.extras te
         | none => c.extras))) with
      | some (some v) => if includeKey (some t.keys) "extras" then some v else none
      | _ => none) = _
    rw [includeKey_keys_extras]
    cases he : t.extras <;> simp

/-- C6 counterexample: at the repository's test fixture and the test
suite's template, the projected dictionary's keywords entry is not the
top-level-only filtering the claim describes (all kept values taken whole
from the spec): the nested key d of keyword b is filtered out as well. -/
theorem c6_counterexample :
    ¬ ((project testCalc user_defined_template).2.lookup "keywords" =
        some (.vkwmap (project_keywords_toplevel testCalc.keywords
          (user_defined_template.keywords.getD [])))) := by
  decide

/-- Witness for C6 at the test fixture and the test suite's template. -/
theorem c6_witness :
    ((project testCalc user_defined_template).2.lookup "program" =
       if user_defined_template.program.isSome then
         some (.vstr testCalc.program) else none) ∧
    ((project testCalc user_defined_template).2.lookup "method" =
       if user_defined_template.method.isSome then
         some (.vstr testCalc.method) else none) ∧
    ((project testCalc user_defined_template).2.lookup "basis" =
       if user_defined_template.basis.isSome then
         testCalc.basis.map JVal.vstr else none) ∧
    ((project testCalc user_defined_template).2.lookup "input" =
       if user_defined_template.input.isSome then
         testCalc.input.map JVal.vstr else none) ∧
    ((project testCalc user_defined_template).2.lookup "keywords" =
       if user_defined_template.keywords.isSome then
         some (.vkwmap (project_keywords testCalc.keywords
           (user_defined_template.keywords.getD [])))
       else none) ∧
    ((project testCalc user_defined_template).2.lookup "cmdline_args" =
       if user_defined_template.cmdline_args.isSome then
         some (.vlist testCalc.cmdline_args) else none) ∧
    ((project testCalc user_defined_template).2.lookup "files" =
       if user_defined_template.files.isSome then
         some (.vstrmap testCalc.files) else none) ∧
    ((project testCalc user_defined_template).2.lookup "calctype" =
       if user_defined_template.calctype.isSome then
         testCalc.calctype.map JVal.vstr else none) ∧
    ((project testCalc user_defined_template).2.lookup "program_version" =
       if user_defined_template.program_version.isSome then
         testCalc.program_version.map JVal.vstr else none) ∧
    ((project testCalc user_defined_template).2.lookup "extras" =
       if user_defined_template.extras.isSome then
         some (.vkwmap (project_keywords testCalc.extras
           (user_defined_template.extras.getD [])))
       else none) ∧
    (∀ q ∈ (project testCalc user_defined_template).2,
      q.1 ∈ user_defined_template.keys) :=
  c6_project_returns_template_fields testCalc user_defined_template

/-!
Lemmas about canonicalization under deep key-reordering.
-/

theorem KwValEquiv.rfl (v : KwVal) : KwValEquiv v v := by
  cases v with
  | dict m => exact List.Perm.refl m
  | str s => exact Eq.refl _
  | null => exact Eq.refl _

theorem canon_eq_of_equiv {v1 v2 : KwVal} (h : KwValEquiv v1 v2)
    (hnd : v1.nodupKeys) : v1.canon = v2.canon := by
  cases v1 with
  | dict m1 =>
      cases v2 with
      | dict m2 =>
          have hp : m1.Perm m2 := h
          exact congrArg KwVal.dict (sortPairs_eq_of_perm hp hnd)
      | str s =>
          have h' : KwVal.dict m1 = KwVal.str s := h
          exact absurd h' (by simp)
      | null =>
          have h' : KwVal.dict m1 = KwVal.null := h
          exact absurd h' (by simp)
  | str s =>
      have h' : KwVal.str s = v2 := h
      rw [← h']
  | null =>
      have h' : KwVal.null = v2 := h
      rw [← h']

theorem canonKwPairs_keys (d : List (String × KwVal)) :
    (canonKwPairs d).map Prod.fst = d.map Prod.fst := by
  induction d with
  | nil => rfl
  | cons p tl ih => simp only [canonKwPairs, List.map_cons] at *; rw [ih]

theorem canonKwPairs_eq_of_forall2 {l1 l2 : List (String × KwVal)}
    (hf : List.Forall₂ KwPairEquiv l1 l2) :
    NestedNodup l1 → canonKwPairs l1 = canonKwPairs l2 := by
  induction hf with
  | nil => intro _; rfl
  | @cons a b l1' l2' hab _htail ih =>
      intro hnd
      have hnd1 : a.2.nodupKeys := hnd a (by simp)
      have hndt : NestedNodup l1' := fun p hp => hnd p (by simp [hp])
      simp only [canonKwPairs, List.map_cons]
      rw [hab.1, canon_eq_of_equiv hab.2 hnd1]
      exact congrArg _ (ih hndt)

theorem canonKwPairs_perm_of_reordered {d1 d2 : List (String × KwVal)}
    (h : KwDictReordered d1 d2) (hnd : NestedNodup d1) :
    (canonKwPairs d1).Perm (canonKwPairs d2) := by
  obtain ⟨mid, hp, hf⟩ := h
  have hndmid : NestedNodup mid := fun p hpm => hnd p (hp.mem_iff.mpr hpm)
  have h1 : (canonKwPairs d1).Perm (canonKwPairs mid) := hp.map _
  rw [canonKwPairs_eq_of_forall2 hf hndmid] at h1
  exact h1

theorem sorted_canonKwPairs_eq {d1 d2 : List (String × KwVal)}
    (h : KwDictReordered d1 d2) (hnd : NestedNodup d1)
    (hk : (d1.map Prod.fst).Nodup) :
    sortPairs (canonKwPairs d1) = sortPairs (canonKwPairs d2) :=
  sortPairs_eq_of_perm (canonKwPairs_perm_of_reordered h hnd)
    (by rw [canonKwPairs_keys]; exact hk)

theorem map_canon_dump_eq {l1 l2 : List (String × Option JVal)}
    (inc : Option (List String))
    (hf : List.Forall₂ (fun p q => p.1 = q.1 ∧
      Option.map JVal.canon p.2 = Option.map JVal.canon q.2) l1 l2) :
    (l1.filterMap (dumpEntry inc)).map (fun p => (p.1, p.2.canon)) =
    (l2.filterMap (dumpEntry inc)).map (fun p => (p.1, p.2.canon)) := by
  induction hf with
  | nil => rfl
  | @cons p q l1' l2' hpq _htail ih =>
      rcases p with ⟨a, ov⟩
      rcases q with ⟨b, ow⟩
      obtain ⟨hab, hvw⟩ := hpq
      simp only at hab
      subst hab
      rw [List.filterMap_cons, List.filterMap_cons]
      cases ov with
      | none =>
          cases ow with
          | none => simpa [dumpEntry] using ih
          | some w => simp at hvw
      | some v =>
          cases ow with
          | none => simp at hvw
          | some w =>
              have hc : v.canon = w.canon := by simpa using hvw
              simp only [dumpEntry]
              by_cases hi : includeKey inc a
              · rw [if_pos hi, if_pos hi]
                simp only [List.map_cons]
                rw [hc]
                exact congrArg _ ih
              · rw [if_neg hi, if_neg hi]
                exact ih

theorem hash_dump_eq_of_reordered {c1 c2 : Calculation} (h : Reordered c1 c2)
    (inc : Option (List String)) :
    hash_from_dict (c1.dump inc) = hash_from_dict (c2.dump inc) := by
  unfold hash_from_dict
  have hmap : (c1.dump inc).map (fun p => (p.1, p.2.canon)) =
      (c2.dump inc).map (fun p => (p.1, p.2.canon)) := by
    unfold Calculation.dump
    apply map_canon_dump_eq
    unfold Calculation.fields
    refine List.Forall₂.cons ⟨rfl, by rw [h.program_eq]⟩ ?_
    refine List.Forall₂.cons ⟨rfl, by rw [h.method_eq]⟩ ?_
    refine List.Forall₂.cons ⟨rfl, by rw [h.basis_eq]⟩ ?_
    refine List.Forall₂.cons ⟨rfl, by rw [h.input_eq]⟩ ?_
    refine List.Forall₂.cons ⟨rfl, ?_⟩ ?_
    · show some (JVal.canon (.vkwmap c1.keywords)) =
        some (JVal.canon (.vkwmap c2.keywords))
      simp only [JVal.canon]
      rw [sorted_canonKwPairs_eq h.keywords_re h.kw_nested_nodup
        h.kw_keys_nodup]
    refine List.Forall₂.cons ⟨rfl, by rw [h.cmdline_eq]⟩ ?_
    refine List.Forall₂.cons ⟨rfl, ?_⟩ ?_
    · show some (JVal.canon (.vstrmap c1.files)) =
        some (JVal.canon (.vstrmap c2.files))
      simp only [JVal.canon]
      rw [sortPairs_eq_of_perm h.files_perm h.files_keys_nodup]
    refine List.Forall₂.cons ⟨rfl, by rw [h.calctype_eq]⟩ ?_
    refine List.Forall₂.cons ⟨rfl, by rw [h.version_eq]⟩ ?_
    refine List.Forall₂.cons ⟨rfl, ?_⟩ .nil
    show some (JVal.canon (.vkwmap c1.extras)) =
      some (JVal.canon (.vkwmap c2.extras))
    simp only [JVal.canon]
    rw [sorted_canonKwPairs_eq h.extras_re h.ex_nested_nodup h.ex_keys_nodup]
  rw [hmap]

theorem nestedFilter_equiv {v1 v2 : KwVal} (tv : KwVal) (h : KwValEquiv v1 v2) :
    KwValEquiv (nestedFilter v1 tv) (nestedFilter v2 tv) := by
  cases v1 with
  | dict m1 =>
      cases v2 with
      | dict m2 =>
          have hp : m1.Perm m2 := h
          cases tv with
          | dict tm => exact hp.filter _
          | str s => exact h
          | null => exact h
      | str s =>
          have h' : KwVal.dict m1 = KwVal.str s := h
          exact absurd h' (by simp)
      | null =>
          have h' : KwVal.dict m1 = KwVal.null := h
          exact absurd h' (by simp)
  | str s1 =>
      have h' : KwVal.str s1 = v2 := h
      rw [← h']
      exact KwValEquiv.rfl _
  | null =>
      have h' : KwVal.null = v2 := h
      rw [← h']
      exact KwValEquiv.rfl _

theorem project_keywords_forall2 {l1 l2 : List (String × KwVal)}
    (t : List (String × KwVal)) (hf : List.Forall₂ KwPairEquiv l1 l2) :
    List.Forall₂ KwPairEquiv (project_keywords l1 t) (project_keywords l2 t) := by
  induction hf with
  | nil => exact .nil
  | @cons p q l1' l2' hpq _htail ih =>
      rcases p with ⟨a, v⟩
      rcases q with ⟨b, w⟩
      obtain ⟨hab, hvw⟩ := hpq
      simp only at hab
      subst hab
      unfold project_keywords at *
      rw [List.filterMap_cons, List.filterMap_cons]
      cases hl : t.lookup a with
      | none => exact ih
      | some tv => exact .cons ⟨rfl, nestedFilter_equiv tv hvw⟩ ih

theorem project_keywords_reordered {d1 d2 : List (String × KwVal)}
    (t : List (String × KwVal)) (h : KwDictReordered d1 d2) :
    KwDictReordered (project_keywords d1 t) (project_keywords d2 t) := by
  obtain ⟨mid, hp, hf⟩ := h
  exact ⟨project_keywords mid t, hp.filterMap _,
    project_keywords_forall2 t hf⟩

theorem project_keywords_keys_sublist (d t : List (String × KwVal)) :
    ((project_keywords d t).map Prod.fst).Sublist (d.map Prod.fst) := by
  apply keys_filterMap_sublist
  intro p r h
  split at h
  · exact absurd h (by simp)
  · obtain rfl := Option.some.inj h
    rfl

theorem nestedFilter_nodupKeys {v tv : KwVal} (h : v.nodupKeys) :
    (nestedFilter v tv).nodupKeys := by
  cases v with
  | dict m =>
      cases tv with
      | dict tm =>
          have hsub : ((m.filter fun q =>
              (tm.map Prod.fst).contains q.1).map Prod.fst).Sublist
              (m.map Prod.fst) :=
            (List.filter_sublist m).map _
          exact hsub.nodup h
      | str s => exact h
      | null => exact h
  | str s => exact trivial
  | null => exact trivial

theorem project_keywords_nested_nodup {d t : List (String × KwVal)}
    (hnd : NestedNodup d) : NestedNodup (project_keywords d t) := by
  intro q hq
  obtain ⟨p, hp, he⟩ := List.mem_filterMap.mp hq
  split at he
  · exact absurd he (by simp)
  · obtain rfl := Option.some.inj he
    exact nestedFilter_nodupKeys (hnd p hp)

theorem reordered_project {c1 c2 : Calculation} (h : Reordered c1 c2)
    (t : Template) : Reordered (project c1 t).1 (project c2 t).1 := by
  rw [project_fst, project_fst]
  cases hk : t.keywords with
  | none =>
      cases he : t.extras with
      | none =>
          exact { program_eq := h.program_eq, method_eq := h.method_eq,
                  basis_eq := h.basis_eq, input_eq := h.input_eq,
                  cmdline_eq := h.cmdline_eq, calctype_eq := h.calctype_eq,
                  version_eq := h.version_eq, keywords_re := h.keywords_re,
                  extras_re := h.extras_re, files_perm := h.files_perm,
                  kw_keys_nodup := h.kw_keys_nodup,
                  ex_keys_nodup := h.ex_keys_nodup,
                  files_keys_nodup := h.files_keys_nodup,
                  kw_nested_nodup := h.kw_nested_nodup,
                  ex_nested_nodup := h.ex_nested_nodup }
      | some te =>
          exact { program_eq := h.program_eq, method_eq := h.method_eq,
                  basis_eq := h.basis_eq, input_eq := h.input_eq,
                  cmdline_eq := h.cmdline_eq, calctype_eq := h.calctype_eq,
                  version_eq := h.version_eq, keywords_re := h.keywords_re,
                  extras_re := project_keywords_reordered te h.extras_re,
                  files_perm := h.files_perm,
                  kw_keys_nodup := h.kw_keys_nodup,
                  ex_keys_nodup :=
                    (project_keywords_keys_sublist _ _).nodup h.ex_keys_nodup,
                  files_keys_nodup := h.files_keys_nodup,
                  kw_nested_nodup := h.kw_nested_nodup,
                  ex_nested_nodup :=
                    project_keywords_nested_nodup h.ex_nested_nodup }
  | some tk =>
      cases he : t.extras with
      | none =>
          exact { program_eq := h.program_eq, method_eq := h.method_eq,
                  basis_eq := h.basis_eq, input_eq := h.input_eq,
                  cmdline_eq := h.cmdline_eq, calctype_eq := h.calctype_eq,
                  version_eq := h.version_eq,
                  keywords_re := project_keywords_reordered tk h.keywords_re,
                  extras_re := h.extras_re, files_perm := h.files_perm,
                  kw_keys_nodup :=
                    (project_keywords_keys_sublist _ _).nodup h.kw_keys_nodup,
                  ex_keys_nodup := h.ex_keys_nodup,
                  files_keys_nodup := h.files_keys_nodup,
                  kw_nested_nodup :=
                    project_keywords_nested_nodup h.kw_nested_nodup,
                  ex_nested_nodup := h.ex_nested_nodup }
      | some te =>
          exact { program_eq := h.program_eq, method_eq := h.method_eq,
                  basis_eq := h.basis_eq, input_eq := h.input_eq,
                  cmdline_eq := h.cmdline_eq, calctype_eq := h.calctype_eq,
                  version_eq := h.version_eq,
                  keywords_re := project_keywords_reordered tk h.keywords_re,
                  extras_re := project_keywords_reordered te h.extras_re,
                  files_perm := h.files_perm,
                  kw_keys_nodup :=
                    (project_keywords_keys_sublist _ _).nodup h.kw_keys_nodup,
                  ex_keys_nodup :=
                    (project_keywords_keys_sublist _ _).nodup h.ex_keys_nodup,
                  files_keys_nodup := h.files_keys_nodup,
                  kw_nested_nodup :=
                    project_keywords_nested_nodup h.kw_nested_nodup,
                  ex_nested_nodup :=
                    project_keywords_nested_nodup h.ex_nested_nodup }

theorem projected_hash_eq_dump (c : Calculation) (t : Template) :
    projected_hash c t = hash_from_dict ((project c t).1.dump (some t.keys)) :=
  rfl

/-- C4: for all Calculations equal after deep key-reordering (same set
fields, same nested keyword, extras and files entries, any mapping
insertion order) and every scheme registered in the hash registry (full,
minimal with any keyword allowlist, and the test suite's user_defined),
the scheme's hash of the two specs is the same. -/
theorem c4_reordered_hash_eq (allow : List (String × KwVal))
    (c1 c2 : Calculation) (name : String) (h : Reordered c1 c2)
    (hn : name ∈ hash_registry_available allow) :
    calculation_hash allow c1 name = calculation_hash allow c2 name := by
  have hnames : hash_registry_available allow =
      ["full", "minimal", "user_defined"] := rfl
  rw [hnames] at hn
  simp only [List.mem_cons, List.not_mem_nil, or_false] at hn
  rcases hn with rfl | rfl | rfl
  · show some (full_hash c1) = some (full_hash c2)
    exact congrArg some (hash_dump_eq_of_reordered h none)
  · show some (minimal_hash allow c1) = some (minimal_hash allow c2)
    refine congrArg some ?_
    show projected_hash c1 (minimal_template allow) =
      projected_hash c2 (minimal_template allow)
    rw [projected_hash_eq_dump, projected_hash_eq_dump]
    exact hash_dump_eq_of_reordered
      (reordered_project h (minimal_template allow)) _
  · show some (user_defined_hash c1) = some (user_defined_hash c2)
    refine congrArg some ?_
    show projected_hash c1 user_defined_template =
      projected_hash c2 user_defined_template
    rw [projected_hash_eq_dump, projected_hash_eq_dump]
    exact hash_dump_eq_of_reordered
      (reordered_project h user_defined_template) _

/-- Witness for C4: the calc and calc_reordered fixtures of the test
suite, under every registered scheme name in turn is covered by the
theorem; here it is applied at the full scheme with the empty minimal
allowlist. -/
theorem c4_witness :
    Reordered testCalc testCalcReordered ∧
    "full" ∈ hash_registry_available [] ∧
    calculation_hash [] testCalc "full" =
      calculation_hash [] testCalcReordered "full" := by
  have hre : Reordered testCalc testCalcReordered :=
    { program_eq := rfl, method_eq := rfl, basis_eq := rfl, input_eq := rfl,
      cmdline_eq := rfl, calctype_eq := rfl, version_eq := rfl,
      keywords_re := by
        show KwDictReordered
          [("a", KwVal.dict [("c", "x"), ("d", "y")]),
           ("b", KwVal.dict [("c", "x"), ("d", "y")])]
          [("b", KwVal.dict [("d", "y"), ("c", "x")]),
           ("a", KwVal.dict [("d", "y"), ("c", "x")])]
        exact ⟨[("b", KwVal.dict [("c", "x"), ("d", "y")]),
                ("a", KwVal.dict [("c", "x"), ("d", "y")])],
          List.Perm.swap ("b", KwVal.dict [("c", "x"), ("d", "y")])
            ("a", KwVal.dict [("c", "x"), ("d", "y")]) [],
          List.Forall₂.cons
            ⟨rfl, List.Perm.swap ("d", "y") ("c", "x") []⟩
            (List.Forall₂.cons
              ⟨rfl, List.Perm.swap ("d", "y") ("c", "x") []⟩ .nil)⟩,
      extras_re := by
        show KwDictReordered [] []
        exact ⟨[], List.Perm.refl [], .nil⟩,
      files_perm := by
        show List.Perm ([] : List (String × String)) []
        exact List.Perm.refl [],
      kw_keys_nodup := by decide,
      ex_keys_nodup := by decide,
      files_keys_nodup := by decide,
      kw_nested_nodup := by decide,
      ex_nested_nodup := by decide }
  exact ⟨hre, by decide,
    c4_reordered_hash_eq [] testCalc testCalcReordered "full" hre (by decide)⟩

/-!
Lemmas for the nested-keyword-change claim.
-/

theorem mem_of_lookup_eq_some {β : Type} {l : List (String × β)} {k : String}
    {b : β} (h : l.lookup k = some b) : (k, b) ∈ l := by
  obtain ⟨l1, l2, rfl, -⟩ := List.lookup_eq_some_iff.mp h
  simp

theorem eq_of_mem_keys_nodup {β : Type} {l : List (String × β)} {k : String}
    {x y : β} (hnd : (l.map Prod.fst).Nodup) (hx : (k, x) ∈ l)
    (hy : (k, y) ∈ l) : x = y := by
  induction l with
  | nil => simp at hx
  | cons p tl ih =>
      simp only [List.map_cons, List.nodup_cons] at hnd
      rcases List.mem_cons.mp hx with h1 | h1
      · rcases List.mem_cons.mp hy with h2 | h2
        · rw [← h1] at h2
          exact (Prod.mk.injEq _ _ _ _ ▸ h2).2.symm
        · exact absurd (List.mem_map.mpr ⟨(k, y), h2, by rw [← h1]⟩) hnd.1
      · rcases List.mem_cons.mp hy with h2 | h2
        · exact absurd (List.mem_map.mpr ⟨(k, x), h1, by rw [← h2]⟩) hnd.1
        · exact ih hnd.2 h1 h2

theorem keywords_mem_dump (c : Calculation) :
    ("keywords", JVal.vkwmap c.keywords) ∈ c.dump none := by
  refine List.mem_filterMap.mpr
    ⟨("keywords", some (.vkwmap c.keywords)), ?_, rfl⟩
  simp [Calculation.fields]

theorem dump_value_at_keywords {c : Calculation} {w : JVal}
    (hmem : ("keywords", w) ∈ c.dump none) : w = .vkwmap c.keywords :=
  eq_of_mem_keys_nodup (dump_keys_nodup c none) hmem (keywords_mem_dump c)

theorem not_contains_of_lookup_none {β : Type} {l : List (String × β)}
    {k : String} (h : l.lookup k = none) :
    (l.map Prod.fst).contains k = false := by
  rw [List.lookup_eq_none_iff] at h
  simp only [List.contains, List.elem_eq_mem, decide_eq_false_iff_not]
  intro hm
  obtain ⟨p, hp, he⟩ := List.mem_map.mp hm
  exact (bne_iff_ne.mp (h p hp)) he.symm

theorem filter_map_upd_eq {m : List (String × String)} {tmkeys : List String}
    {k2 v2 : String} (hc : tmkeys.contains k2 = false) :
    ((m.map fun q => if q.1 = k2 then (k2, v2) else q).filter
      (fun q => tmkeys.contains q.1)) =
    m.filter (fun q => tmkeys.contains q.1) := by
  induction m with
  | nil => rfl
  | cons q tl ih =>
      by_cases hq : q.1 = k2
      · rw [List.map_cons, if_pos hq, List.filter_cons, List.filter_cons]
        have h1 : tmkeys.contains (k2, v2).1 = false := hc
        have h2 : tmkeys.contains q.1 = false := by rw [hq]; exact hc
        rw [h1, h2]
        simpa using ih
      · rw [List.map_cons, if_neg hq, List.filter_cons, List.filter_cons, ih]

theorem nestedFilter_updNested_eq {w : KwVal} {tm : List (String × String)}
    {k2 v2 : String} (htm : tm.lookup k2 = none) :
    nestedFilter (updNested k2 v2 w) (.dict tm) = nestedFilter w (.dict tm) := by
  cases w with
  | dict m =>
      simp only [updNested, nestedFilter]
      rw [filter_map_upd_eq (not_contains_of_lookup_none htm)]
  | str s => rfl
  | null => rfl

theorem project_keywords_setNested {d allow : List (String × KwVal)}
    {k k2 v2 : String}
    (habs : allow.lookup k = none ∨
      ∃ tm, allow.lookup k = some (KwVal.dict tm) ∧ tm.lookup k2 = none) :
    project_keywords (setNested d k k2 v2) allow = project_keywords d allow := by
  induction d with
  | nil => rfl
  | cons p tl ih =>
      rcases p with ⟨a, w⟩
      show project_keywords
        ((if a = k then (a, updNested k2 v2 w) else (a, w)) ::
          setNested tl k k2 v2) allow = _
      by_cases ha : a = k
      · rw [if_pos ha]
        subst ha
        unfold project_keywords
        rw [List.filterMap_cons, List.filterMap_cons]
        rcases habs with hnone | ⟨tm, hsome, htm⟩
        · rw [hnone]
          exact ih
        · rw [hsome]
          dsimp only
          rw [nestedFilter_updNested_eq htm]
          exact congrArg _ ih
      · rw [if_neg ha]
        unfold project_keywords
        rw [List.filterMap_cons, List.filterMap_cons]
        cases hl : allow.lookup a with
        | none => exact ih
        | some tv => exact congrArg _ ih

theorem minimal_hash_setNested_eq (allow : List (String × KwVal))
    (c : Calculation) {k k2 v2 : String}
    (habs : allow.lookup k = none ∨
      ∃ tm, allow.lookup k = some (KwVal.dict tm) ∧ tm.lookup k2 = none) :
    minimal_hash allow (changeNestedKeyword c k k2 v2) = minimal_hash allow c := by
  have h1 : (project (changeNestedKeyword c k k2 v2) (minimal_template allow)).1 =
      (project c (minimal_template allow)).1 := by
    rw [project_fst, project_fst]
    show Calculation.mk c.program c.method c.basis c.input
        (project_keywords (setNested c.keywords k k2 v2) allow)
        c.cmdline_args c.files c.calctype c.program_version c.extras =
      Calculation.mk c.program c.method c.basis c.input
        (project_keywords c.keywords allow)
        c.cmdline_args c.files c.calctype c.program_version c.extras
    rw [project_keywords_setNested habs]
  show projected_hash (changeNestedKeyword c k k2 v2) (minimal_template allow) =
    projected_hash c (minimal_template allow)
  rw [projected_hash_eq_dump, projected_hash_eq_dump, h1]

theorem full_hash_ne_of_changed {c : Calculation} {k k2 v2 : String}
    {m : List (String × String)} {v : String}
    (hk : c.keywords.lookup k = some (.dict m))
    (hv : m.lookup k2 = some v) (hne : v ≠ v2)
    (hnd : (c.keywords.map Prod.fst).Nodup) :
    full_hash (changeNestedKeyword c k k2 v2) ≠ full_hash c := by
  intro heq
  have hperm : (((changeNestedKeyword c k k2 v2).dump none).map
      (fun p => (p.1, p.2.canon))).Perm
      ((c.dump none).map (fun p => (p.1, p.2.canon))) := by
    have h1 := sortPairs_perm (((changeNestedKeyword c k k2 v2).dump none).map
      (fun p => (p.1, p.2.canon)))
    have h2 := sortPairs_perm ((c.dump none).map (fun p => (p.1, p.2.canon)))
    have h3 : sortPairs (((changeNestedKeyword c k k2 v2).dump none).map
        (fun p => (p.1, p.2.canon))) =
        sortPairs ((c.dump none).map (fun p => (p.1, p.2.canon))) := heq
    rw [← h3] at h2
    exact h1.symm.trans h2
  have hmemB : ("keywords", JVal.canon (.vkwmap c.keywords)) ∈
      (c.dump none).map (fun p => (p.1, p.2.canon)) :=
    List.mem_map.mpr ⟨("keywords", .vkwmap c.keywords), keywords_mem_dump c, rfl⟩
  have hmemA := hperm.mem_iff.mpr hmemB
  obtain ⟨q, hq, he⟩ := List.mem_map.mp hmemA
  rcases q with ⟨qk, qv⟩
  dsimp only at he
  rw [Prod.mk.injEq] at he
  obtain ⟨hqk, hcanon⟩ := he
  subst hqk
  have hqv : qv = .vkwmap (changeNestedKeyword c k k2 v2).keywords :=
    dump_value_at_keywords hq
  subst hqv
  have hkw : sortPairs (canonKwPairs (setNested c.keywords k k2 v2)) =
      sortPairs (canonKwPairs c.keywords) := by
    have h4 : JVal.vkwmap (sortPairs (canonKwPairs
        (setNested c.keywords k k2 v2))) =
        JVal.vkwmap (sortPairs (canonKwPairs c.keywords)) := hcanon
    exact JVal.vkwmap.inj h4
  have hpk : (canonKwPairs (setNested c.keywords k k2 v2)).Perm
      (canonKwPairs c.keywords) := by
    have h1 := sortPairs_perm (canonKwPairs (setNested c.keywords k k2 v2))
    have h2 := sortPairs_perm (canonKwPairs c.keywords)
    rw [← hkw] at h2
    exact h1.symm.trans h2
  have hmem2 : (k, KwVal.canon (.dict m)) ∈ canonKwPairs c.keywords :=
    List.mem_map.mpr ⟨(k, .dict m), mem_of_lookup_eq_some hk, rfl⟩
  have hmem2' := hpk.mem_iff.mpr hmem2
  obtain ⟨r, hr, her⟩ := List.mem_map.mp hmem2'
  rcases r with ⟨rk, rv⟩
  dsimp only at her
  rw [Prod.mk.injEq] at her
  obtain ⟨hrk, hcanon2⟩ := her
  rw [hrk] at hr
  obtain ⟨p0, hp0, hif⟩ := List.mem_map.mp hr
  rcases p0 with ⟨pk0, pv0⟩
  dsimp only at hif
  by_cases hpk0 : pk0 = k
  · subst hpk0
    rw [if_pos rfl] at hif
    rw [Prod.mk.injEq] at hif
    obtain ⟨-, hrv⟩ := hif
    have hpv0 : pv0 = .dict m :=
      eq_of_mem_keys_nodup hnd hp0 (mem_of_lookup_eq_some hk)
    subst hpv0
    rw [← hrv] at hcanon2
    have hsort : sortPairs (m.map fun q => if q.1 = k2 then (k2, v2) else q) =
        sortPairs m := by
      have h5 : KwVal.dict (sortPairs
          (m.map fun q => if q.1 = k2 then (k2, v2) else q)) =
          KwVal.dict (sortPairs m) := hcanon2
      exact KwVal.dict.inj h5
    have hmv : (k2, v) ∈ m := mem_of_lookup_eq_some hv
    have hmv2 : (k2, v) ∈ m.map (fun q => if q.1 = k2 then (k2, v2) else q) := by
      have h5 : (k2, v) ∈ sortPairs m := (sortPairs_perm m).mem_iff.mpr hmv
      rw [← hsort] at h5
      exact (sortPairs_perm _).mem_iff.mp h5
    obtain ⟨q0, hq0, hq0e⟩ := List.mem_map.mp hmv2
    rcases q0 with ⟨q0k, q0v⟩
    dsimp only at hq0e
    by_cases hq0k : q0k = k2
    · rw [if_pos hq0k] at hq0e
      rw [Prod.mk.injEq] at hq0e
      exact hne hq0e.2.symm
    · rw [if_neg hq0k] at hq0e
      rw [Prod.mk.injEq] at hq0e
      exact hq0k hq0e.1
  · rw [if_neg hpk0] at hif
    rw [Prod.mk.injEq] at hif
    exact hpk0 hif.1

/-- C5: changing the value of one nested keyword key that is absent from
the minimal scheme's keyword allowlist changes the full hash but leaves
the minimal hash unchanged; proved for every allowlist, with absence
meaning the top-level key is not in the allowlist or the nested key is
not in the allowlist's nested mapping. -/
theorem c5_full_changes_minimal_stable (allow : List (String × KwVal))
    (c : Calculation) (k k2 v2 : String) (m : List (String × String))
    (v : String)
    (hk : c.keywords.lookup k = some (.dict m))
    (hv : m.lookup k2 = some v) (hne : v ≠ v2)
    (hnd : (c.keywords.map Prod.fst).Nodup)
    (habs : allow.lookup k = none ∨
      ∃ tm, allow.lookup k = some (KwVal.dict tm) ∧ tm.lookup k2 = none) :
    calculation_hash allow (changeNestedKeyword c k k2 v2) "full" ≠
      calculation_hash allow c "full" ∧
    calculation_hash allow (changeNestedKeyword c k k2 v2) "minimal" =
      calculation_hash allow c "minimal" := by
  constructor
  · intro heq
    have h1 : some (full_hash (changeNestedKeyword c k k2 v2)) =
        some (full_hash c) := heq
    exact full_hash_ne_of_changed hk hv hne hnd (Option.some.inj h1)
  · show some (minimal_hash allow (changeNestedKeyword c k k2 v2)) =
      some (minimal_hash allow c)
    exact congrArg some (minimal_hash_setNested_eq allow c habs)

/-- Witness for C5 at the test suite's keyword-change fixture: nested key
d of keyword b changed from y to z, with the empty minimal allowlist. -/
theorem c5_witness :
    testCalc.keywords.lookup "b" = some (.dict [("c", "x"), ("d", "y")]) ∧
    ([("c", "x"), ("d", "y")] : List (String × String)).lookup "d" =
      some "y" ∧
    ("y" : String) ≠ "z" ∧
    (testCalc.keywords.map Prod.fst).Nodup ∧
    (([] : List (String × KwVal)).lookup "b" = none ∨
      ∃ tm, ([] : List (String × KwVal)).lookup "b" =
        some (KwVal.dict tm) ∧ tm.lookup "d" = none) ∧
    (calculation_hash [] (changeNestedKeyword testCalc "b" "d" "z") "full" ≠
      calculation_hash [] testCalc "full" ∧
     calculation_hash [] (changeNestedKeyword testCalc "b" "d" "z") "minimal" =
      calculation_hash [] testCalc "minimal") :=
  ⟨by decide, by decide, by decide, by decide, Or.inl rfl,
   c5_full_changes_minimal_stable [] testCalc "b" "d" "z"
     [("c", "x"), ("d", "y")] "y" (by decide) (by decide) (by decide)
     (by decide) (Or.inl rfl)⟩

end Autostore
